import Mathlib

/-!
Shallow embedding of the appmetrica-logsapi-loader scheduling core
(src/updater/scheduler.py, src/updater/updates_controller.py,
src/state/state.py, src/state/json_serialization.py).

Time model: Python naive `datetime` values are order-isomorphic to their
microsecond count since the Unix epoch, and naive datetime/timedelta
arithmetic is plain integer arithmetic on that count (no leap seconds, no
DST).  We therefore model both `datetime` and `timedelta` as `Int`
microseconds.  The process is assumed to run with UTC as the local
timezone, so `datetime.timestamp()` is microseconds divided by 10^6.
Calendar truncations such as `replace(minute=0, second=0, microsecond=0)`
become flooring to a multiple of the hour (the epoch is hour- and
day-aligned).
-/

namespace AppMetrica

/-- Microseconds in one second. -/
def usecPerSec : Int := 1000000

/-- Microseconds in one hour. -/
def hourUsec : Int := 3600 * usecPerSec

/-- Microseconds in one day. -/
def dayUsec : Int := 24 * hourUsec

/-- Python `dt.replace(minute=0, second=0, microsecond=0)`: truncate a
datetime to the start of its hour (floor, also for pre-epoch values). -/
def floorToHour (t : Int) : Int := t / hourUsec * hourUsec

/-- Python `dt.replace(hour=0, minute=0, second=0, microsecond=0)`:
truncate a datetime to the start of its day. -/
def floorToDay (t : Int) : Int := t / dayUsec * dayUsec

/-- Python `p_hour.replace(minute=59, second=59)` from scheduler.py: keep
the hour and the microsecond field, set minute and second to 59. -/
def lastEventHour (p : Int) : Int :=
  floorToHour p + 3599 * usecPerSec + p % usecPerSec

/-- `Scheduler.ARCHIVED_HOUR = datetime(3000, 1, 1, 0, 0, 0)`:
32503680000 seconds after the epoch. -/
def ARCHIVED_HOUR : Int := 32503680000 * usecPerSec

/-- scheduler.py `UpdateRequest`. -/
structure UpdateRequest where
  source : String
  app_id : String
  hour : Option Int
  update_type : String
deriving DecidableEq, Repr

def UpdateRequest.ARCHIVE : String := "archive"

def UpdateRequest.LOAD_ONE_HOUR : String := "load_one_hour"

def UpdateRequest.LOAD_HOUR_IGNORED : String := "load_hour_ignored"

/-- state.py `AppIdState`.  `date_updates` is a Python dict keyed by hour
start; we model it as an insertion-ordered association list.  The
`last_profile_update` slot is unset for non-profile entities and `None`
for fresh profile entities; both are modelled as `none`. -/
structure AppIdState where
  app_id : String
  date_updates : List (Int × Int)
  last_profile_update : Option Int
deriving DecidableEq, Repr

/-- state.py `State` (the constant `version = 1` field carries no
behaviour and is not serialized by the encoder relevant to the claims,
so it is omitted). -/
structure State where
  last_update_time : Option Int
  app_id_states : List AppIdState
deriving DecidableEq, Repr

/-- Python `dict.get`: value of the first (unique, in a real dict) entry
with the given key. -/
def dictGet (du : List (Int × Int)) (k : Int) : Option Int :=
  (du.find? (fun kv => kv.1 == k)).map (fun kv => kv.2)

/-- Python `dict.__setitem__`: replace the value in place when the key is
present (keeping insertion order), append otherwise. -/
def dictSet (du : List (Int × Int)) (k v : Int) : List (Int × Int) :=
  if du.any (fun kv => kv.1 == k) then
    du.map (fun kv => if kv.1 == k then (kv.1, v) else kv)
  else
    du ++ [(k, v)]

/-- fields.py `SchedulingDefinition` (declaration only; the lists are the
caller-supplied stable source lists). -/
structure SchedulingDefinition where
  date_required_sources : List String
  date_ignored_sources : List String
deriving Repr

/-- The scheduler configuration: constructor arguments of `Scheduler`
plus the two settings constants it imports (`SAFE_LAG_HOURS`,
`PROFILE_UPDATE_INTERVAL`, both in hours). -/
structure SchedulerConfig where
  definition : SchedulingDefinition
  app_ids : List String
  update_limit : Int
  update_interval : Int
  fresh_limit : Int
  safe_lag_hours : Int
  profile_update_interval_hours : Int
deriving Repr

/-- Look up an entity object by its composite key: first match, like the
list comprehension in `Scheduler._get_or_create_app_id_state`. -/
def findAppIdState (st : State) (key : String) : Option AppIdState :=
  st.app_id_states.find? (fun a => a.app_id == key)

/-- Replace the first entity with the given key (Python mutates the
object found by `_get_or_create_app_id_state`, which takes the first
match). -/
def updateFirst (key : String) (f : AppIdState → AppIdState) :
    List AppIdState → List AppIdState
  | [] => []
  | a :: rest =>
    if a.app_id == key then f a :: rest else a :: updateFirst key f rest

def updateAppIdState (st : State) (key : String) (f : AppIdState → AppIdState) :
    State :=
  { st with app_id_states := updateFirst key f st.app_id_states }

/-- The mark of one bucket of one entity (a state observation used by the
theorems). -/
def entityMark (st : State) (key : String) (p : Int) : Option Int :=
  (findAppIdState st key).bind (fun a => dictGet a.date_updates p)

/-- `Scheduler._get_or_create_app_id_state`: returns the (existing or
appended) entity key together with the possibly-extended state. -/
def get_or_create_app_id_state (st : State) (source app_id : String) :
    State × String :=
  if st.app_id_states.any (fun a => a.app_id == source ++ "_" ++ app_id) then
    (st, source ++ "_" ++ app_id)
  else
    ({ st with app_id_states :=
        st.app_id_states ++ [⟨source ++ "_" ++ app_id, [], none⟩] },
      source ++ "_" ++ app_id)

/-- Python `s.startswith(pre)`: the characters of `pre` are an initial
segment of the characters of `s`.  (Defined by structural recursion on
the character lists so that it reduces well.) -/
def strStartsWith (s pre : String) : Bool :=
  decide (pre.data = s.data.take pre.data.length)

/-- `Scheduler._mark_hour_updated` (the controller calls this after a
successful load; `_save_state` makes the in-memory state authoritative,
which the model represents by returning the new state). -/
def mark_hour_updated (st : State) (key : String) (p now : Int) : State :=
  if strStartsWith key "profiles_" then st
  else
    updateAppIdState st key
      (fun a => { a with date_updates := dictSet a.date_updates p now })

/-- `Scheduler._mark_hour_archived`. -/
def mark_hour_archived (st : State) (key : String) (p : Int) : State :=
  if strStartsWith key "profiles_" then st
  else
    updateAppIdState st key
      (fun a => { a with date_updates := dictSet a.date_updates p ARCHIVED_HOUR })

/-- `Scheduler._is_hour_archived`. -/
def is_hour_archived (st : State) (key : String) (p : Int) : Bool :=
  match entityMark st key p with
  | some u => u == ARCHIVED_HOUR
  | none => false

/-- One Archive request per configured hour-required source (the inner
`for source in self._definition.date_required_sources` fan of
`_archive_old_hours` and `_update_hour`). -/
def archive_requests (cfg : SchedulerConfig) (app_id : String) (p : Int) :
    List UpdateRequest :=
  cfg.definition.date_required_sources.map
    (fun s => ⟨s, app_id, some p, UpdateRequest.ARCHIVE⟩)

/-- One Load request per configured hour-required source. -/
def load_requests (cfg : SchedulerConfig) (app_id : String) (p : Int) :
    List UpdateRequest :=
  cfg.definition.date_required_sources.map
    (fun s => ⟨s, app_id, some p, UpdateRequest.LOAD_ONE_HOUR⟩)

/-- The loop body of `Scheduler._archive_old_hours`: iterate over the
snapshot of `date_updates.items()` taken at loop entry, while the
archive marks mutate the live state. -/
def archive_old_hours_go (cfg : SchedulerConfig) (key app_id : String) :
    List (Int × Int) → State → List UpdateRequest × State
  | [], st => ([], st)
  | (p, u) :: rest, st =>
    if is_hour_archived st key p then
      archive_old_hours_go cfg key app_id rest st
    else if u - lastEventHour p < cfg.fresh_limit then
      archive_old_hours_go cfg key app_id rest st
    else
      let st2 := mark_hour_archived st key p
      let out := archive_old_hours_go cfg key app_id rest st2
      (archive_requests cfg app_id p ++ out.1, out.2)

/-- `Scheduler._archive_old_hours`. -/
def archive_old_hours (cfg : SchedulerConfig) (st : State)
    (key app_id : String) : List UpdateRequest × State :=
  archive_old_hours_go cfg key app_id
    (((findAppIdState st key).map (fun a => a.date_updates)).getD []) st

/-- `Scheduler._update_hour`.  A stored datetime is always truthy in
Python, so `if updated_at:` is a `some`-match; the commented-out
`_mark_hour_updated` call is absent. -/
def update_hour (cfg : SchedulerConfig) (st : State) (key app_id : String)
    (p started_at : Int) : List UpdateRequest × State :=
  match dictGet (((findAppIdState st key).map (fun a => a.date_updates)).getD []) p with
  | some u =>
    if started_at - u < cfg.update_interval then ([], st)
    else if u - lastEventHour p < cfg.fresh_limit then
      (load_requests cfg app_id p, st)
    else
      (load_requests cfg app_id p ++ archive_requests cfg app_id p,
        mark_hour_archived st key p)
  | none =>
    if started_at - lastEventHour p < cfg.fresh_limit then
      (load_requests cfg app_id p, st)
    else
      (load_requests cfg app_id p ++ archive_requests cfg app_id p,
        mark_hour_archived st key p)

/-- `Scheduler._update_hour_ignored_fields`. -/
def update_hour_ignored_fields (cfg : SchedulerConfig) (app_id : String) :
    List UpdateRequest :=
  cfg.definition.date_ignored_sources.map
    (fun s => ⟨s, app_id, none, UpdateRequest.LOAD_HOUR_IGNORED⟩)

/-- `hour_to` of `Scheduler.update_requests`:
`(started_at - timedelta(hours=SAFE_LAG_HOURS)).replace(minute=0, ...)`. -/
def window_hour_to (cfg : SchedulerConfig) (started_at : Int) : Int :=
  floorToHour (started_at - cfg.safe_lag_hours * hourUsec)

/-- `hour_from` of `Scheduler.update_requests`:
`(hour_to - update_limit).replace(hour=0, minute=0, ...)`. -/
def window_hour_from (cfg : SchedulerConfig) (started_at : Int) : Int :=
  floorToDay (window_hour_to cfg started_at - cfg.update_limit)

/-- `pd.date_range(lo, hi, freq=H)`: the hourly grid from `lo` up to the
last grid point that is at most `hi` (empty when `hi < lo`). -/
def hourRange (lo hi : Int) : List Int :=
  if hi < lo then []
  else (List.range ((hi - lo) / hourUsec + 1).toNat).map
    (fun i => lo + Int.ofNat i * hourUsec)

/-- The list of hours visited by the window sweep of one
(app, required-source) iteration. -/
def window_hours (cfg : SchedulerConfig) (started_at : Int) : List Int :=
  hourRange (window_hour_from cfg started_at) (window_hour_to cfg started_at)

/-- The `for pd_hour in pd.date_range(...)` loop of
`Scheduler.update_requests`; each grid value passes through
`.replace(minute=0, second=0, microsecond=0)` before `_update_hour`. -/
def run_window (cfg : SchedulerConfig) (key app_id : String)
    (started_at : Int) : List Int → State → List UpdateRequest × State
  | [], st => ([], st)
  | ph :: rest, st =>
    let p := floorToHour ph
    let first := update_hour cfg st key app_id p started_at
    let other := run_window cfg key app_id started_at rest first.2
    (first.1 ++ other.1, other.2)

/-- The body of the `for source in self._definition.date_required_sources`
loop of `Scheduler.update_requests`: get or create the entity, run the
archive sweep, run the window sweep, then emit the ignored-sources fan
(the ignored-sources block is indented inside this loop in the source). -/
def process_source (cfg : SchedulerConfig) (st : State)
    (app_id source : String) (started_at : Int) :
    List UpdateRequest × State :=
  let created := get_or_create_app_id_state st source app_id
  let key := created.2
  let swept := archive_old_hours cfg created.1 key app_id
  let windowed :=
    run_window cfg key app_id started_at (window_hours cfg started_at) swept.2
  (swept.1 ++ windowed.1 ++ update_hour_ignored_fields cfg app_id, windowed.2)

/-- Iterate `process_source` over the required sources for one app. -/
def run_sources (cfg : SchedulerConfig) (app_id : String) (started_at : Int) :
    List String → State → List UpdateRequest × State
  | [], st => ([], st)
  | s :: rest, st =>
    let first := process_source cfg st app_id s started_at
    let other := run_sources cfg app_id started_at rest first.2
    (first.1 ++ other.1, other.2)

/-- Iterate the per-app body of `Scheduler.update_requests` over apps. -/
def run_apps (cfg : SchedulerConfig) (started_at : Int) :
    List String → State → List UpdateRequest × State
  | [], st => ([], st)
  | a :: rest, st =>
    let first :=
      run_sources cfg a started_at cfg.definition.date_required_sources st
    let other := run_apps cfg started_at rest first.2
    (first.1 ++ other.1, other.2)

/-- `Scheduler._update_profiles_if_needed`.  The guard compares
`(now - last).total_seconds()` with `PROFILE_UPDATE_INTERVAL * 3600`;
in microseconds that is `now - last > interval_hours * 3600 * 10^6`.
The request is yielded before `last_profile_update` is assigned, and no
`_save_state` call happens here. -/
def update_profiles_if_needed (cfg : SchedulerConfig) (st : State)
    (app_id : String) (now : Int) : List UpdateRequest × State :=
  let created := get_or_create_app_id_state st "profiles" app_id
  let st1 := created.1
  let key := created.2
  let last := (findAppIdState st1 key).bind (fun a => a.last_profile_update)
  let due :=
    match last with
    | none => true
    | some t =>
      decide (now - t > cfg.profile_update_interval_hours * 3600 * usecPerSec)
  if due then
    ([⟨"profiles", app_id, none, "load_profiles"⟩],
      updateAppIdState st1 key
        (fun a => { a with last_profile_update := some now }))
  else ([], st1)

/-- The profile loop at the end of `Scheduler.update_requests`, including
the literal guard that re-checks source, type and hour before yielding. -/
def run_profiles (cfg : SchedulerConfig) (now : Int) :
    List String → State → List UpdateRequest × State
  | [], st => ([], st)
  | a :: rest, st =>
    let first := update_profiles_if_needed cfg st a now
    let kept := first.1.filter
      (fun r => r.source == "profiles" && r.update_type == "load_profiles"
        && r.hour == none)
    let other := run_profiles cfg now rest first.2
    (kept ++ other.1, other.2)

/-- `Scheduler.update_requests` after `_load_state` and `_wait_if_needed`:
`started_at` is the `datetime.now()` sample for the hourly sweeps,
`profiles_now` the later sample taken before the profile loop, and
`finish_now` the sample used by `_finish_updates` to set
`last_update_time`. -/
def update_requests (cfg : SchedulerConfig) (st : State)
    (started_at profiles_now finish_now : Int) :
    List UpdateRequest × State :=
  let hourly := run_apps cfg started_at cfg.app_ids st
  let profiled := run_profiles cfg profiles_now cfg.app_ids hourly.2
  (hourly.1 ++ profiled.1,
    { profiled.2 with last_update_time := some finish_now })

/-!
Controller model (src/updater/updates_controller.py).

The external collaborators (the Logs API loader and ClickHouse) are the
interface boundary: their outcomes are injected as `Except Unit`
arguments.  The profile snapshot tables live in `ProfileTables`; the
swap protocol of `UpdatesController._load_profiles` only checks
`profiles_df is not None` before inserting, and its `except` block logs
and drops the temp table without re-raising.
-/

/-- The two tables touched by the profile snapshot swap: `none` means the
table does not exist, `some rows` an existing table with those rows. -/
structure ProfileTables where
  latest : Option (List Int)
  tmp : Option (List Int)
deriving DecidableEq, Repr

/-- `UpdatesController._load_profiles`.  `fetched` is the outcome of
`load_profiles_df`: `.error` a raised exception, `.ok none` a missing
DataFrame (the `assert profiles_df is not None` then raises), and
`.ok (some rows)` a fetched DataFrame with those rows — possibly empty.
Storage steps other than the fetch are modelled as succeeding.  Any
exception is caught locally: the temp table is dropped and nothing is
re-raised. -/
def load_profiles (tables : ProfileTables)
    (fetched : Except Unit (Option (List Int))) : ProfileTables :=
  let afterCreate : ProfileTables := { tables with tmp := some [] }
  match fetched with
  | .error _ => { afterCreate with tmp := none }
  | .ok none => { afterCreate with tmp := none }
  | .ok (some rows) => { latest := some rows, tmp := none }

/-- The outcome of one `UpdatesController._update` dispatch: whether the
logged exception was re-raised, plus the scheduler state and profile
tables afterwards. -/
structure DispatchResult where
  raised : Bool
  state : State
  tables : ProfileTables
deriving DecidableEq, Repr

/-- `UpdatesController._update`.  `load_result` is the outcome of
`self._updater.update` (via `_load_into_table`), `archive_result` the
outcome of `db_controller.archive_table`, `fetched` the profile fetch
outcome.  On success of a one-hour load for a source in
`("events", "sessions_starts")` the controller commits the updated-at
mark through the scheduler; exceptions from loads and archives are
logged and re-raised, while `_load_profiles` handles its own. -/
def controller_update (req : UpdateRequest)
    (load_result archive_result : Except Unit Unit)
    (fetched : Except Unit (Option (List Int)))
    (st : State) (tables : ProfileTables) (now : Int) : DispatchResult :=
  if req.update_type == UpdateRequest.LOAD_ONE_HOUR then
    if req.source == "profiles" then ⟨false, st, tables⟩
    else
      match load_result with
      | .error _ => ⟨true, st, tables⟩
      | .ok _ =>
        if req.source == "events" || req.source == "sessions_starts" then
          let created := get_or_create_app_id_state st req.source req.app_id
          match req.hour with
          | some h => ⟨false, mark_hour_updated created.1 created.2 h now, tables⟩
          | none => ⟨false, created.1, tables⟩
        else ⟨false, st, tables⟩
  else if req.update_type == UpdateRequest.ARCHIVE then
    if req.source == "profiles" then ⟨false, st, tables⟩
    else
      match archive_result with
      | .error _ => ⟨true, st, tables⟩
      | .ok _ => ⟨false, st, tables⟩
  else if req.update_type == UpdateRequest.LOAD_HOUR_IGNORED then
    if req.source == "profiles" then ⟨false, st, tables⟩
    else
      match load_result with
      | .error _ => ⟨true, st, tables⟩
      | .ok _ => ⟨false, st, tables⟩
  else if req.update_type == "load_profiles" then
    ⟨false, st, load_profiles tables fetched⟩
  else ⟨false, st, tables⟩

/-!
Serialization model (src/state/json_serialization.py).

`strftime` with format `%Y-%m-%d %H:%M:%S` prints the calendar fields of
a datetime, discarding microseconds; the printed string is in bijection
with the floor-to-second value of the datetime, so a dict key on the
wire is modelled by that second count.  `int(dt.timestamp())` truncates
the float timestamp toward zero, and `datetime.utcfromtimestamp`
rebuilds a whole-second datetime.
-/

/-- The JSON form of an `AppIdState` produced by `StateJSONEncoder`:
`date_updates` keys are the strftime strings (modelled as their
second count), values the truncated unix seconds.  Note that
`last_profile_update` is not serialized at all. -/
structure EncodedAppIdState where
  app_id : String
  date_updates : List (Int × Int)
deriving DecidableEq, Repr

/-- The JSON form of a `State`. -/
structure EncodedState where
  last_update_time : Option Int
  app_id_states : List EncodedAppIdState
deriving DecidableEq, Repr

/-- `dt_hour.strftime(DATETIME_FORMAT)`: the printed calendar second
(floor of the microsecond count). -/
def encode_hour_key (t : Int) : Int := t / usecPerSec

/-- `int(dt.timestamp())`: truncation toward zero, like Python `int()`
on a float. -/
def to_unix_time (t : Int) : Int := Int.tdiv t usecPerSec

/-- `datetime.strptime(s, DATETIME_FORMAT)`: the datetime named by the
key string. -/
def parse_hour_key (s : Int) : Int := s * usecPerSec

/-- `datetime.utcfromtimestamp(u)`. -/
def from_unix_time (u : Int) : Int := u * usecPerSec

/-- The `AppIdState` branch of `StateJSONEncoder.default`. -/
def encode_app_id_state (a : AppIdState) : EncodedAppIdState :=
  ⟨a.app_id, a.date_updates.map (fun kv => (encode_hour_key kv.1, to_unix_time kv.2))⟩

/-- The `State` branch of `StateJSONEncoder.default` (a datetime is
always truthy, so `if o.last_update_time` is a `some`-match). -/
def encode_state (s : State) : EncodedState :=
  ⟨s.last_update_time.map to_unix_time, s.app_id_states.map encode_app_id_state⟩

/-- `_parse_date_updates`. -/
def parse_date_updates (du : List (Int × Int)) : List (Int × Int) :=
  du.map (fun kv => (parse_hour_key kv.1, from_unix_time kv.2))

/-- `_parse_app_id_state`: the `AppIdState` constructor initializes
`last_profile_update` to `None` for profile entities and leaves the slot
unset otherwise; both are `none` in the model. -/
def parse_app_id_state (e : EncodedAppIdState) : AppIdState :=
  ⟨e.app_id, parse_date_updates e.date_updates, none⟩

/-- `_parse_state` on a document with an `app_id_states` key. -/
def parse_state (e : EncodedState) : State :=
  ⟨e.last_update_time.map from_unix_time, e.app_id_states.map parse_app_id_state⟩

/-- A save/load cycle of the in-memory state: encode with
`StateJSONEncoder`, decode with `StateJSONDecoder` (whose `_hook` calls
`_parse_state`); `Scheduler._load_state` additionally ensures
`last_profile_update` exists on profile entities, which the constructor
already did. -/
def state_round_trip (s : State) : State := parse_state (encode_state s)

/-- One outer-loop pass as driven by `UpdatesController._step`:
`update_requests` loads the persisted document, generates the request
list, and the mutated state is what a subsequent save persists.  The
state store itself is not under src/; per the spec (§4.1, §6) it saves
and loads exactly the serialized document, so a pass maps a persisted
document to requests plus the next persisted document. -/
def run_pass (cfg : SchedulerConfig) (doc : EncodedState)
    (started_at profiles_now finish_now : Int) :
    List UpdateRequest × EncodedState :=
  let out := update_requests cfg (parse_state doc) started_at profiles_now finish_now
  (out.1, encode_state out.2)

/-!
Helper lemmas about the dictionary and entity operations.
-/

theorem find?_replace_value_ne (du : List (Int × Int)) (k p v : Int)
    (h : p ≠ k) :
    Option.map (fun kv : Int × Int => kv.2)
        (List.find? (fun kv => kv.1 == p)
          (du.map (fun kv => if kv.1 == k then (kv.1, v) else kv)))
      = Option.map (fun kv : Int × Int => kv.2)
          (List.find? (fun kv => kv.1 == p) du) := by
  induction du with
  | nil => rfl
  | cons kv rest ih =>
    by_cases hp : kv.1 = p
    · have hk : (kv.1 == k) = false := by simp [hp, h]
      simp only [List.map_cons, hk, Bool.false_eq_true, if_false]
      rw [List.find?_cons_of_pos _ (by simp [hp]),
        List.find?_cons_of_pos _ (by simp [hp])]
    · simp only [List.map_cons]
      rw [List.find?_cons_of_neg _ (by simp only [beq_iff_eq]; split <;> simpa using hp),
        List.find?_cons_of_neg _ (by simpa using hp)]
      exact ih

theorem dictGet_dictSet_ne (du : List (Int × Int)) (k p v : Int) (h : p ≠ k) :
    dictGet (dictSet du k v) p = dictGet du p := by
  unfold dictSet dictGet
  split
  · exact find?_replace_value_ne du k p v h
  · rw [List.find?_append]
    have hnone : List.find? (fun kv : Int × Int => kv.1 == p) [(k, v)] = none := by
      simp [Ne.symm h]
    simp [hnone]

theorem dictGet_dictSet_self (du : List (Int × Int)) (k v : Int) :
    dictGet (dictSet du k v) k = some v := by
  unfold dictSet dictGet
  split
  · rename_i hany
    induction du with
    | nil => simp at hany
    | cons kv rest ih =>
      by_cases hk : kv.1 = k
      · simp only [List.map_cons, hk]
        rw [List.find?_cons_of_pos _ (by simp)]
        simp
      · have hne : (kv.1 == k) = false := by simpa using hk
        simp only [List.map_cons, hne, Bool.false_eq_true, if_false]
        rw [List.find?_cons_of_neg _ (by simp [hne])]
        apply ih
        simp only [List.any_cons, Bool.or_eq_true] at hany
        rcases hany with h1 | h2
        · exact absurd (by simpa using h1) hk
        · exact h2
  · rename_i hany
    rw [List.find?_append]
    have hnone : List.find? (fun kv : Int × Int => kv.1 == k) du = none := by
      rw [List.find?_eq_none]
      intro x hx hbeq
      exact hany (List.any_eq_true.mpr ⟨x, hx, hbeq⟩)
    simp [hnone]

theorem findAppIdState_updateAppIdState_self (st : State) (key : String)
    (f : AppIdState → AppIdState) (hf : ∀ a, (f a).app_id = a.app_id) :
    findAppIdState (updateAppIdState st key f) key
      = (findAppIdState st key).map f := by
  unfold findAppIdState updateAppIdState
  simp only
  induction st.app_id_states with
  | nil => rfl
  | cons a rest ih =>
    unfold updateFirst
    by_cases h : a.app_id = key
    · simp only [h, beq_self_eq_true, if_true]
      rw [List.find?_cons_of_pos _ (by simp [hf, h]),
        List.find?_cons_of_pos _ (by simp [h])]
      rfl
    · have hne : (a.app_id == key) = false := by simpa using h
      simp only [hne, Bool.false_eq_true, if_false]
      rw [List.find?_cons_of_neg _ (by simp [hne]),
        List.find?_cons_of_neg _ (by simp [hne])]
      exact ih

theorem findAppIdState_updateAppIdState_ne (st : State) (key key2 : String)
    (f : AppIdState → AppIdState) (hf : ∀ a, (f a).app_id = a.app_id)
    (h : key2 ≠ key) :
    findAppIdState (updateAppIdState st key f) key2 = findAppIdState st key2 := by
  unfold findAppIdState updateAppIdState
  simp only
  induction st.app_id_states with
  | nil => rfl
  | cons a rest ih =>
    unfold updateFirst
    by_cases hk : a.app_id = key
    · have hk2 : (a.app_id == key2) = false := by
        simp [hk]
        exact Ne.symm h
      simp only [hk, beq_self_eq_true, if_true]
      rw [List.find?_cons_of_neg _ (by simp [hf, hk]; exact Ne.symm h),
        List.find?_cons_of_neg _ (by simp [hk2])]
    · have hne : (a.app_id == key) = false := by simpa using hk
      simp only [hne, Bool.false_eq_true, if_false]
      by_cases hk2 : a.app_id = key2
      · rw [List.find?_cons_of_pos _ (by simp [hk2]),
          List.find?_cons_of_pos _ (by simp [hk2])]
      · rw [List.find?_cons_of_neg _ (by simpa using hk2),
          List.find?_cons_of_neg _ (by simpa using hk2)]
        exact ih

theorem entityMark_mark_hour_archived_ne (st : State) (key : String)
    (p q : Int) (h : p ≠ q) :
    entityMark (mark_hour_archived st key q) key p = entityMark st key p := by
  unfold mark_hour_archived
  split
  · rfl
  · unfold entityMark
    rw [findAppIdState_updateAppIdState_self st key
      (fun a => { a with date_updates := dictSet a.date_updates q ARCHIVED_HOUR })
      (fun a => rfl)]
    cases hfind : findAppIdState st key with
    | none => rfl
    | some a =>
      simpa using dictGet_dictSet_ne a.date_updates q p ARCHIVED_HOUR h

theorem entityMark_mark_hour_archived_self (st : State) (key : String)
    (p : Int) (hkey : strStartsWith key "profiles_" = false)
    (hex : (findAppIdState st key).isSome = true) :
    entityMark (mark_hour_archived st key p) key p = some ARCHIVED_HOUR := by
  unfold mark_hour_archived
  rw [if_neg (by simp [hkey])]
  unfold entityMark
  rw [findAppIdState_updateAppIdState_self st key
    (fun a => { a with date_updates := dictSet a.date_updates p ARCHIVED_HOUR })
    (fun a => rfl)]
  cases hfind : findAppIdState st key with
  | none => rw [hfind] at hex; simp at hex
  | some a =>
    simpa using dictGet_dictSet_self a.date_updates p ARCHIVED_HOUR

theorem findAppIdState_mark_hour_archived_isSome (st : State)
    (key2 key : String) (p : Int) :
    ((findAppIdState (mark_hour_archived st key2 p) key).isSome)
      = (findAppIdState st key).isSome := by
  unfold mark_hour_archived
  split
  · rfl
  · by_cases h : key = key2
    · subst h
      rw [findAppIdState_updateAppIdState_self st key
        (fun a => { a with date_updates := dictSet a.date_updates p ARCHIVED_HOUR })
        (fun a => rfl)]
      cases findAppIdState st key <;> rfl
    · rw [findAppIdState_updateAppIdState_ne st key2 key
        (fun a => { a with date_updates := dictSet a.date_updates p ARCHIVED_HOUR })
        (fun a => rfl) h]

theorem is_hour_archived_iff (st : State) (key : String) (p : Int) :
    is_hour_archived st key p = true ↔ entityMark st key p = some ARCHIVED_HOUR := by
  unfold is_hour_archived
  cases h : entityMark st key p with
  | none => simp
  | some u => simp [beq_iff_eq]

theorem entityMark_isSome (st : State) (key : String) (p : Int) (u : Int)
    (h : entityMark st key p = some u) :
    (findAppIdState st key).isSome = true := by
  unfold entityMark at h
  cases hfind : findAppIdState st key with
  | none => rw [hfind] at h; simp at h
  | some a => rfl

/-!
Helper lemmas about the request fans and `update_hour`.
-/

theorem mem_archive_requests (cfg : SchedulerConfig) (app_id : String)
    (p : Int) (r : UpdateRequest) (h : r ∈ archive_requests cfg app_id p) :
    r.hour = some p ∧ r.update_type = UpdateRequest.ARCHIVE ∧ r.app_id = app_id := by
  unfold archive_requests at h
  rw [List.mem_map] at h
  obtain ⟨s, _, rfl⟩ := h
  exact ⟨rfl, rfl, rfl⟩

theorem mem_load_requests (cfg : SchedulerConfig) (app_id : String)
    (p : Int) (r : UpdateRequest) (h : r ∈ load_requests cfg app_id p) :
    r.hour = some p ∧ r.update_type = UpdateRequest.LOAD_ONE_HOUR ∧ r.app_id = app_id := by
  unfold load_requests at h
  rw [List.mem_map] at h
  obtain ⟨s, _, rfl⟩ := h
  exact ⟨rfl, rfl, rfl⟩

theorem update_hour_lookup (st : State) (key : String) (p : Int) :
    dictGet (((findAppIdState st key).map (fun a => a.date_updates)).getD []) p
      = entityMark st key p := by
  unfold entityMark
  cases findAppIdState st key with
  | none => rfl
  | some a => rfl

theorem update_hour_mem (cfg : SchedulerConfig) (st : State)
    (key app_id : String) (p started_at : Int) (r : UpdateRequest)
    (h : r ∈ (update_hour cfg st key app_id p started_at).1) :
    r.hour = some p ∧ r.app_id = app_id
      ∧ (r.update_type = UpdateRequest.LOAD_ONE_HOUR
          ∨ r.update_type = UpdateRequest.ARCHIVE) := by
  unfold update_hour at h
  rcases hm : dictGet (((findAppIdState st key).map (fun a => a.date_updates)).getD []) p with _ | u <;>
    rw [hm] at h <;> simp only at h
  · split at h
    · obtain ⟨h1, h2, h3⟩ := mem_load_requests cfg app_id p r h
      exact ⟨h1, h3, Or.inl h2⟩
    · rw [List.mem_append] at h
      rcases h with h | h
      · obtain ⟨h1, h2, h3⟩ := mem_load_requests cfg app_id p r h
        exact ⟨h1, h3, Or.inl h2⟩
      · obtain ⟨h1, h2, h3⟩ := mem_archive_requests cfg app_id p r h
        exact ⟨h1, h3, Or.inr h2⟩
  · split at h
    · simp at h
    · split at h
      · obtain ⟨h1, h2, h3⟩ := mem_load_requests cfg app_id p r h
        exact ⟨h1, h3, Or.inl h2⟩
      · rw [List.mem_append] at h
        rcases h with h | h
        · obtain ⟨h1, h2, h3⟩ := mem_load_requests cfg app_id p r h
          exact ⟨h1, h3, Or.inl h2⟩
        · obtain ⟨h1, h2, h3⟩ := mem_archive_requests cfg app_id p r h
          exact ⟨h1, h3, Or.inr h2⟩

theorem update_hour_state (cfg : SchedulerConfig) (st : State)
    (key app_id : String) (p started_at : Int) :
    (update_hour cfg st key app_id p started_at).2 = st
      ∨ (update_hour cfg st key app_id p started_at).2
          = mark_hour_archived st key p := by
  unfold update_hour
  rw [update_hour_lookup]
  cases hm : entityMark st key p with
  | none =>
    dsimp only
    by_cases h1 : started_at - lastEventHour p < cfg.fresh_limit
    · rw [if_pos h1]
      exact Or.inl rfl
    · rw [if_neg h1]
      exact Or.inr rfl
  | some v =>
    dsimp only
    by_cases h1 : started_at - v < cfg.update_interval
    · rw [if_pos h1]
      exact Or.inl rfl
    · rw [if_neg h1]
      by_cases h2 : v - lastEventHour p < cfg.fresh_limit
      · rw [if_pos h2]
        exact Or.inl rfl
      · rw [if_neg h2]
        exact Or.inr rfl

theorem update_hour_skip (cfg : SchedulerConfig) (st : State)
    (key app_id : String) (p started_at v : Int)
    (hm : entityMark st key p = some v)
    (hskip : started_at - v < cfg.update_interval) :
    update_hour cfg st key app_id p started_at = ([], st) := by
  unfold update_hour
  rw [update_hour_lookup, hm]
  simp only [if_pos hskip]

theorem update_hour_no_archive (cfg : SchedulerConfig) (st : State)
    (key app_id : String) (p started_at v : Int)
    (hm : entityMark st key p = some v)
    (hfresh : v - lastEventHour p < cfg.fresh_limit) :
    (∀ r ∈ (update_hour cfg st key app_id p started_at).1,
        r.update_type ≠ UpdateRequest.ARCHIVE)
      ∧ (update_hour cfg st key app_id p started_at).2 = st := by
  unfold update_hour
  rw [update_hour_lookup, hm]
  dsimp only
  by_cases hskip : started_at - v < cfg.update_interval
  · rw [if_pos hskip]
    exact ⟨by intro r hr; simp at hr, rfl⟩
  · rw [if_neg hskip, if_pos hfresh]
    refine ⟨?_, rfl⟩
    intro r hr
    obtain ⟨_, h2, _⟩ := mem_load_requests cfg app_id p r hr
    rw [h2]
    decide

theorem update_hour_unset (cfg : SchedulerConfig) (st : State)
    (key app_id : String) (p started_at : Int)
    (hm : entityMark st key p = none) :
    update_hour cfg st key app_id p started_at
      = if started_at - lastEventHour p < cfg.fresh_limit then
          (load_requests cfg app_id p, st)
        else
          (load_requests cfg app_id p ++ archive_requests cfg app_id p,
            mark_hour_archived st key p) := by
  unfold update_hour
  rw [update_hour_lookup, hm]

/-!
Helper lemmas about the archive sweep.
-/

theorem archive_old_hours_go_not_mem (cfg : SchedulerConfig)
    (key app_id : String) (p : Int) (snapshot : List (Int × Int)) (st : State)
    (hnp : ∀ kv ∈ snapshot, kv.1 ≠ p) :
    (∀ r ∈ (archive_old_hours_go cfg key app_id snapshot st).1, r.hour ≠ some p)
      ∧ entityMark (archive_old_hours_go cfg key app_id snapshot st).2 key p
          = entityMark st key p := by
  induction snapshot generalizing st with
  | nil => exact ⟨by intro r hr; simp [archive_old_hours_go] at hr, rfl⟩
  | cons kv rest ih =>
    obtain ⟨q, u⟩ := kv
    have hq : q ≠ p := hnp (q, u) (List.mem_cons_self _ _)
    have hrest : ∀ kv ∈ rest, kv.1 ≠ p :=
      fun kv hkv => hnp kv (List.mem_cons_of_mem _ hkv)
    unfold archive_old_hours_go
    by_cases h1 : is_hour_archived st key q
    · rw [if_pos h1]
      exact ih st hrest
    · rw [if_neg h1]
      by_cases h2 : u - lastEventHour q < cfg.fresh_limit
      · rw [if_pos h2]
        exact ih st hrest
      · rw [if_neg h2]
        dsimp only
        obtain ⟨ihmem, ihmark⟩ := ih (mark_hour_archived st key q) hrest
        constructor
        · intro r hr
          rw [List.mem_append] at hr
          rcases hr with hr | hr
          · obtain ⟨hh, _, _⟩ := mem_archive_requests cfg app_id q r hr
            rw [hh]
            simpa using hq
          · exact ihmem r hr
        · rw [ihmark]
          exact entityMark_mark_hour_archived_ne st key p q (fun hh => hq hh.symm)

theorem archive_old_hours_go_archived (cfg : SchedulerConfig)
    (key app_id : String) (p : Int) (snapshot : List (Int × Int)) (st : State)
    (hm : entityMark st key p = some ARCHIVED_HOUR) :
    (∀ r ∈ (archive_old_hours_go cfg key app_id snapshot st).1, r.hour ≠ some p)
      ∧ entityMark (archive_old_hours_go cfg key app_id snapshot st).2 key p
          = some ARCHIVED_HOUR := by
  induction snapshot generalizing st with
  | nil => exact ⟨by intro r hr; simp [archive_old_hours_go] at hr, hm⟩
  | cons kv rest ih =>
    obtain ⟨q, u⟩ := kv
    unfold archive_old_hours_go
    by_cases hq : q = p
    · subst hq
      rw [if_pos ((is_hour_archived_iff st key q).mpr hm)]
      exact ih st hm
    · by_cases h1 : is_hour_archived st key q
      · rw [if_pos h1]
        exact ih st hm
      · rw [if_neg h1]
        by_cases h2 : u - lastEventHour q < cfg.fresh_limit
        · rw [if_pos h2]
          exact ih st hm
        · rw [if_neg h2]
          dsimp only
          have hm2 : entityMark (mark_hour_archived st key q) key p
              = some ARCHIVED_HOUR := by
            rw [entityMark_mark_hour_archived_ne st key p q
              (fun hh => hq hh.symm)]
            exact hm
          obtain ⟨ihmem, ihmark⟩ := ih (mark_hour_archived st key q) hm2
          constructor
          · intro r hr
            rw [List.mem_append] at hr
            rcases hr with hr | hr
            · obtain ⟨hh, _, _⟩ := mem_archive_requests cfg app_id q r hr
              rw [hh]
              simp [hq]
            · exact ihmem r hr
          · exact ihmark

/-- Requests whose hour is not `p` contribute nothing to a filter that
requires hour `p`. -/
theorem filter_hour_archive_eq_nil (p : Int) (l : List UpdateRequest)
    (h : ∀ r ∈ l, r.hour ≠ some p) :
    l.filter (fun r => r.hour == some p
      && r.update_type == UpdateRequest.ARCHIVE) = [] := by
  rw [List.filter_eq_nil_iff]
  intro r hr
  have := h r hr
  simp [this]

theorem filter_archive_requests_self (cfg : SchedulerConfig)
    (app_id : String) (p : Int) :
    (archive_requests cfg app_id p).filter (fun r => r.hour == some p
      && r.update_type == UpdateRequest.ARCHIVE) = archive_requests cfg app_id p := by
  rw [List.filter_eq_self]
  intro r hr
  obtain ⟨h1, h2, _⟩ := mem_archive_requests cfg app_id p r hr
  simp [h1, h2]

/-- The archive sweep over a snapshot containing exactly one entry for
bucket `p`, carrying value `u`: the archive fan for `p` is emitted iff
`u` is stale, and the mark becomes the sentinel exactly then. -/
theorem archive_old_hours_go_present (cfg : SchedulerConfig)
    (key app_id : String) (p u : Int) (l1 l2 : List (Int × Int)) (st : State)
    (h1 : ∀ kv ∈ l1, kv.1 ≠ p) (h2 : ∀ kv ∈ l2, kv.1 ≠ p)
    (hm : entityMark st key p = some u) (hu : u ≠ ARCHIVED_HOUR)
    (hkey : strStartsWith key "profiles_" = false) :
    ((archive_old_hours_go cfg key app_id (l1 ++ (p, u) :: l2) st).1.filter
        (fun r => r.hour == some p && r.update_type == UpdateRequest.ARCHIVE)
      = if cfg.fresh_limit ≤ u - lastEventHour p then
          archive_requests cfg app_id p else [])
    ∧ entityMark (archive_old_hours_go cfg key app_id (l1 ++ (p, u) :: l2) st).2 key p
      = (if cfg.fresh_limit ≤ u - lastEventHour p then
          some ARCHIVED_HOUR else some u) := by
  induction l1 generalizing st with
  | nil =>
    rw [List.nil_append]
    unfold archive_old_hours_go
    have hnotarch : ¬ is_hour_archived st key p = true := by
      intro hh
      rw [is_hour_archived_iff] at hh
      rw [hm] at hh
      exact hu (by simpa using hh)
    rw [if_neg hnotarch]
    by_cases hfresh : u - lastEventHour p < cfg.fresh_limit
    · rw [if_pos hfresh]
      have hcond : ¬ cfg.fresh_limit ≤ u - lastEventHour p := by omega
      obtain ⟨cmem, cmark⟩ :=
        archive_old_hours_go_not_mem cfg key app_id p l2 st h2
      rw [if_neg hcond, if_neg hcond]
      refine ⟨filter_hour_archive_eq_nil p _ cmem, ?_⟩
      rw [cmark, hm]
    · rw [if_neg hfresh]
      dsimp only
      have hcond : cfg.fresh_limit ≤ u - lastEventHour p := by omega
      have hmarked : entityMark (mark_hour_archived st key p) key p
          = some ARCHIVED_HOUR :=
        entityMark_mark_hour_archived_self st key p hkey
          (entityMark_isSome st key p u hm)
      obtain ⟨cmem, cmark⟩ := archive_old_hours_go_not_mem cfg key app_id p l2
        (mark_hour_archived st key p) h2
      rw [if_pos hcond, if_pos hcond, List.filter_append,
        filter_archive_requests_self, filter_hour_archive_eq_nil p _ cmem,
        List.append_nil]
      exact ⟨rfl, by rw [cmark, hmarked]⟩
  | cons kv rest ih =>
    obtain ⟨q, w⟩ := kv
    have hq : q ≠ p := h1 (q, w) (List.mem_cons_self _ _)
    have hrest : ∀ kv ∈ rest, kv.1 ≠ p :=
      fun kv hkv => h1 kv (List.mem_cons_of_mem _ hkv)
    rw [List.cons_append]
    unfold archive_old_hours_go
    by_cases ha : is_hour_archived st key q
    · rw [if_pos ha]
      exact ih st hrest hm
    · rw [if_neg ha]
      by_cases hf : w - lastEventHour q < cfg.fresh_limit
      · rw [if_pos hf]
        exact ih st hrest hm
      · rw [if_neg hf]
        dsimp only
        have hm2 : entityMark (mark_hour_archived st key q) key p = some u := by
          rw [entityMark_mark_hour_archived_ne st key p q (fun hh => hq hh.symm)]
          exact hm
        obtain ⟨cfilter, cmark⟩ := ih (mark_hour_archived st key q) hrest hm2
        rw [List.filter_append, cfilter]
        have hfanfil : (archive_requests cfg app_id q).filter
            (fun r => r.hour == some p
              && r.update_type == UpdateRequest.ARCHIVE) = [] := by
          apply filter_hour_archive_eq_nil
          intro r hr
          obtain ⟨hh, _, _⟩ := mem_archive_requests cfg app_id q r hr
          rw [hh]
          simpa using hq
        rw [hfanfil, List.nil_append]
        exact ⟨rfl, cmark⟩

/-!
Helper lemmas about the window sweep (`run_window`).
-/

theorem run_window_not_mem (cfg : SchedulerConfig) (key app_id : String)
    (started_at p : Int) (hs : List Int) (st : State)
    (h : ∀ x ∈ hs, floorToHour x ≠ p) :
    (∀ r ∈ (run_window cfg key app_id started_at hs st).1, r.hour ≠ some p)
      ∧ entityMark (run_window cfg key app_id started_at hs st).2 key p
          = entityMark st key p := by
  induction hs generalizing st with
  | nil => exact ⟨by intro r hr; simp [run_window] at hr, rfl⟩
  | cons ph rest ih =>
    have hq : floorToHour ph ≠ p := h ph (List.mem_cons_self _ _)
    have hrest : ∀ x ∈ rest, floorToHour x ≠ p :=
      fun x hx => h x (List.mem_cons_of_mem _ hx)
    unfold run_window
    dsimp only
    obtain ⟨ihmem, ihmark⟩ :=
      ih (update_hour cfg st key app_id (floorToHour ph) started_at).2 hrest
    constructor
    · intro r hr
      rw [List.mem_append] at hr
      rcases hr with hr | hr
      · obtain ⟨hh, _, _⟩ :=
          update_hour_mem cfg st key app_id (floorToHour ph) started_at r hr
        rw [hh]
        simpa using hq
      · exact ihmem r hr
    · rw [ihmark]
      rcases update_hour_state cfg st key app_id (floorToHour ph) started_at with
        heq | heq
      · rw [heq]
      · rw [heq]
        exact entityMark_mark_hour_archived_ne st key p (floorToHour ph)
          (fun hh => hq hh.symm)

theorem run_window_skip (cfg : SchedulerConfig) (key app_id : String)
    (started_at p v : Int) (hs : List Int) (st : State)
    (hm : entityMark st key p = some v)
    (hskip : started_at - v < cfg.update_interval) :
    (∀ r ∈ (run_window cfg key app_id started_at hs st).1, r.hour ≠ some p)
      ∧ entityMark (run_window cfg key app_id started_at hs st).2 key p
          = some v := by
  induction hs generalizing st with
  | nil => exact ⟨by intro r hr; simp [run_window] at hr, hm⟩
  | cons ph rest ih =>
    unfold run_window
    dsimp only
    by_cases hq : floorToHour ph = p
    · rw [hq, update_hour_skip cfg st key app_id p started_at v hm hskip]
      obtain ⟨ihmem, ihmark⟩ := ih st hm
      exact ⟨by intro r hr; rw [List.nil_append] at hr; exact ihmem r hr,
        by simpa using ihmark⟩
    · have hm2 : entityMark (update_hour cfg st key app_id
          (floorToHour ph) started_at).2 key p = some v := by
        rcases update_hour_state cfg st key app_id (floorToHour ph) started_at with
          heq | heq
        · rw [heq]; exact hm
        · rw [heq, entityMark_mark_hour_archived_ne st key p (floorToHour ph)
            (fun hh => hq hh.symm)]
          exact hm
      obtain ⟨ihmem, ihmark⟩ :=
        ih (update_hour cfg st key app_id (floorToHour ph) started_at).2 hm2
      constructor
      · intro r hr
        rw [List.mem_append] at hr
        rcases hr with hr | hr
        · obtain ⟨hh, _, _⟩ :=
            update_hour_mem cfg st key app_id (floorToHour ph) started_at r hr
          rw [hh]
          simpa using hq
        · exact ihmem r hr
      · exact ihmark

theorem run_window_no_archive (cfg : SchedulerConfig) (key app_id : String)
    (started_at p v : Int) (hs : List Int) (st : State)
    (hm : entityMark st key p = some v)
    (hfresh : v - lastEventHour p < cfg.fresh_limit) :
    ((run_window cfg key app_id started_at hs st).1.filter
        (fun r => r.hour == some p
          && r.update_type == UpdateRequest.ARCHIVE) = [])
      ∧ entityMark (run_window cfg key app_id started_at hs st).2 key p
          = some v := by
  induction hs generalizing st with
  | nil => exact ⟨by simp [run_window], hm⟩
  | cons ph rest ih =>
    unfold run_window
    dsimp only
    by_cases hq : floorToHour ph = p
    · rw [hq]
      obtain ⟨noarch, hst⟩ :=
        update_hour_no_archive cfg st key app_id p started_at v hm hfresh
      rw [hst]
      obtain ⟨ihfil, ihmark⟩ := ih st hm
      rw [List.filter_append, ihfil]
      refine ⟨?_, ihmark⟩
      rw [List.filter_eq_nil_iff.mpr, List.nil_append]
      intro r hr
      have := noarch r hr
      simp [this]
    · have hm2 : entityMark (update_hour cfg st key app_id
          (floorToHour ph) started_at).2 key p = some v := by
        rcases update_hour_state cfg st key app_id (floorToHour ph) started_at with
          heq | heq
        · rw [heq]; exact hm
        · rw [heq, entityMark_mark_hour_archived_ne st key p (floorToHour ph)
            (fun hh => hq hh.symm)]
          exact hm
      obtain ⟨ihfil, ihmark⟩ :=
        ih (update_hour cfg st key app_id (floorToHour ph) started_at).2 hm2
      rw [List.filter_append, ihfil]
      refine ⟨?_, ihmark⟩
      rw [List.filter_eq_nil_iff.mpr, List.nil_append]
      intro r hr
      obtain ⟨hh, _, _⟩ :=
        update_hour_mem cfg st key app_id (floorToHour ph) started_at r hr
      simp [hh, hq]

/-- The window sweep over hours whose only occurrence of bucket `p` is the
middle element, when `p` has no stored mark: the archive fan for `p` is
emitted iff `started_at` is already past the freshness threshold. -/
theorem run_window_unset (cfg : SchedulerConfig) (key app_id : String)
    (started_at p : Int) (hs1 hs2 : List Int) (ph : Int) (st : State)
    (hf : floorToHour ph = p)
    (h1 : ∀ x ∈ hs1, floorToHour x ≠ p) (h2 : ∀ x ∈ hs2, floorToHour x ≠ p)
    (hm : entityMark st key p = none) :
    (run_window cfg key app_id started_at (hs1 ++ ph :: hs2) st).1.filter
        (fun r => r.hour == some p && r.update_type == UpdateRequest.ARCHIVE)
      = if cfg.fresh_limit ≤ started_at - lastEventHour p then
          archive_requests cfg app_id p else [] := by
  induction hs1 generalizing st with
  | nil =>
    rw [List.nil_append]
    unfold run_window
    dsimp only
    rw [hf, update_hour_unset cfg st key app_id p started_at hm]
    by_cases hfresh : started_at - lastEventHour p < cfg.fresh_limit
    · rw [if_pos hfresh]
      dsimp only
      have hcond : ¬ cfg.fresh_limit ≤ started_at - lastEventHour p := by omega
      rw [if_neg hcond, List.filter_append]
      have hload : (load_requests cfg app_id p).filter
          (fun r => r.hour == some p
            && r.update_type == UpdateRequest.ARCHIVE) = [] := by
        rw [List.filter_eq_nil_iff]
        intro r hr
        obtain ⟨hh, ht, _⟩ := mem_load_requests cfg app_id p r hr
        simp [hh, ht]
        decide
      obtain ⟨cmem, _⟩ := run_window_not_mem cfg key app_id started_at p hs2 st h2
      rw [hload, filter_hour_archive_eq_nil p _ cmem]
      rfl
    · rw [if_neg hfresh]
      dsimp only
      have hcond : cfg.fresh_limit ≤ started_at - lastEventHour p := by omega
      rw [if_pos hcond, List.filter_append, List.filter_append,
        filter_archive_requests_self]
      have hload : (load_requests cfg app_id p).filter
          (fun r => r.hour == some p
            && r.update_type == UpdateRequest.ARCHIVE) = [] := by
        rw [List.filter_eq_nil_iff]
        intro r hr
        obtain ⟨hh, ht, _⟩ := mem_load_requests cfg app_id p r hr
        simp [hh, ht]
        decide
      obtain ⟨cmem, _⟩ := run_window_not_mem cfg key app_id started_at p hs2
        (mark_hour_archived st key p) h2
      rw [hload, filter_hour_archive_eq_nil p _ cmem, List.nil_append,
        List.append_nil]
  | cons x rest ih =>
    have hx : floorToHour x ≠ p := h1 x (List.mem_cons_self _ _)
    have hrest : ∀ y ∈ rest, floorToHour y ≠ p :=
      fun y hy => h1 y (List.mem_cons_of_mem _ hy)
    rw [List.cons_append]
    unfold run_window
    dsimp only
    have hm2 : entityMark (update_hour cfg st key app_id
        (floorToHour x) started_at).2 key p = none := by
      rcases update_hour_state cfg st key app_id (floorToHour x) started_at with
        heq | heq
      · rw [heq]; exact hm
      · rw [heq, entityMark_mark_hour_archived_ne st key p (floorToHour x)
          (fun hh => hx hh.symm)]
        exact hm
    rw [List.filter_append]
    have hfirst : (update_hour cfg st key app_id
        (floorToHour x) started_at).1.filter
        (fun r => r.hour == some p
          && r.update_type == UpdateRequest.ARCHIVE) = [] := by
      rw [List.filter_eq_nil_iff]
      intro r hr
      obtain ⟨hh, _, _⟩ :=
        update_hour_mem cfg st key app_id (floorToHour x) started_at r hr
      simp [hh, hx]
    rw [hfirst, List.nil_append]
    exact ih (update_hour cfg st key app_id (floorToHour x) started_at).2
      hrest hm2

/-!
Helper lemmas about `get_or_create_app_id_state` and decompositions.
-/

theorem get_or_create_key (st : State) (source app_id : String) :
    (get_or_create_app_id_state st source app_id).2 = source ++ "_" ++ app_id := by
  unfold get_or_create_app_id_state
  split <;> rfl

theorem get_or_create_found (st : State) (source app_id : String)
    (h : (findAppIdState st (source ++ "_" ++ app_id)).isSome = true) :
    (get_or_create_app_id_state st source app_id).1 = st := by
  unfold get_or_create_app_id_state
  rw [if_pos]
  rw [List.any_eq_true]
  rw [findAppIdState, List.find?_isSome] at h
  exact h

theorem get_or_create_not_found (st : State) (source app_id : String)
    (h : findAppIdState st (source ++ "_" ++ app_id) = none) :
    findAppIdState (get_or_create_app_id_state st source app_id).1
        (source ++ "_" ++ app_id)
      = some ⟨source ++ "_" ++ app_id, [], none⟩ := by
  unfold get_or_create_app_id_state
  rw [if_neg]
  · unfold findAppIdState at h ⊢
    simp only
    rw [List.find?_append, h]
    simp
  · intro hany
    rw [List.any_eq_true] at hany
    rw [findAppIdState, List.find?_eq_none] at h
    obtain ⟨a, ha, hbeq⟩ := hany
    exact h a ha hbeq

theorem dict_decompose (l : List (Int × Int)) (p u : Int)
    (hnd : (l.map Prod.fst).Nodup) (hget : dictGet l p = some u) :
    ∃ l1 l2, l = l1 ++ (p, u) :: l2
      ∧ (∀ kv ∈ l1, kv.1 ≠ p) ∧ (∀ kv ∈ l2, kv.1 ≠ p) := by
  unfold dictGet at hget
  cases hfind : List.find? (fun kv => kv.1 == p) l with
  | none => rw [hfind] at hget; simp at hget
  | some kv =>
    rw [hfind] at hget
    have hkv2 : kv.2 = u := by simpa using hget
    have hkv1 : kv.1 = p := by
      have := List.find?_some hfind
      simpa using this
    have hmem : kv ∈ l := List.mem_of_find?_eq_some hfind
    have hkv : kv = (p, u) := by
      obtain ⟨k1, k2⟩ := kv
      simp only at hkv1 hkv2
      rw [hkv1, hkv2]
    subst hkv
    obtain ⟨l1, l2, rfl⟩ := List.append_of_mem hmem
    refine ⟨l1, l2, rfl, ?_, ?_⟩
    · intro kv hkv hcontr
      rw [List.map_append, List.map_cons] at hnd
      rw [List.nodup_append] at hnd
      obtain ⟨_, _, hdisj⟩ := hnd
      exact hdisj (List.mem_map_of_mem Prod.fst hkv)
        (by rw [hcontr]; exact List.mem_cons_self _ _)
    · intro kv hkv hcontr
      rw [List.map_append, List.map_cons] at hnd
      rw [List.nodup_append] at hnd
      obtain ⟨_, hnd2, _⟩ := hnd
      rw [List.nodup_cons] at hnd2
      have hmemf : kv.1 ∈ List.map Prod.fst l2 := List.mem_map_of_mem Prod.fst hkv
      exact hnd2.1 (hcontr ▸ hmemf)

theorem mem_decompose_unique (l : List Int) (p : Int) (hnd : l.Nodup)
    (hmem : p ∈ l) :
    ∃ l1 l2, l = l1 ++ p :: l2
      ∧ (∀ x ∈ l1, x ≠ p) ∧ (∀ x ∈ l2, x ≠ p) := by
  obtain ⟨l1, l2, rfl⟩ := List.append_of_mem hmem
  rw [List.nodup_append] at hnd
  obtain ⟨_, hnd2, hdisj⟩ := hnd
  rw [List.nodup_cons] at hnd2
  refine ⟨l1, l2, rfl, ?_, ?_⟩
  · intro x hx hcontr
    exact hdisj hx (by rw [hcontr]; exact List.mem_cons_self _ _)
  · intro x hx hcontr
    exact hnd2.1 (by rw [← hcontr]; exact hx)

theorem entityMark_mark_hour_archived_cases (st : State) (key : String)
    (p w : Int) (hm : entityMark st key p = some w) :
    entityMark (mark_hour_archived st key p) key p = some w
      ∨ entityMark (mark_hour_archived st key p) key p = some ARCHIVED_HOUR := by
  by_cases hkey : strStartsWith key "profiles_" = true
  · left
    unfold mark_hour_archived
    rw [if_pos hkey]
    exact hm
  · right
    exact entityMark_mark_hour_archived_self st key p
      (by simpa using hkey) (entityMark_isSome st key p w hm)

theorem archive_old_hours_go_types (cfg : SchedulerConfig)
    (key app_id : String) (snapshot : List (Int × Int)) (st : State) :
    ∀ r ∈ (archive_old_hours_go cfg key app_id snapshot st).1,
      r.update_type = UpdateRequest.ARCHIVE := by
  induction snapshot generalizing st with
  | nil => intro r hr; simp [archive_old_hours_go] at hr
  | cons kv rest ih =>
    obtain ⟨q, u⟩ := kv
    unfold archive_old_hours_go
    by_cases h1 : is_hour_archived st key q
    · rw [if_pos h1]; exact ih st
    · rw [if_neg h1]
      by_cases h2 : u - lastEventHour q < cfg.fresh_limit
      · rw [if_pos h2]; exact ih st
      · rw [if_neg h2]
        dsimp only
        intro r hr
        rw [List.mem_append] at hr
        rcases hr with hr | hr
        · exact (mem_archive_requests cfg app_id q r hr).2.1
        · exact ih (mark_hour_archived st key q) r hr

theorem archive_old_hours_go_mark_cases (cfg : SchedulerConfig)
    (key app_id : String) (p v : Int) (snapshot : List (Int × Int)) (st : State)
    (hm : entityMark st key p = some v
      ∨ entityMark st key p = some ARCHIVED_HOUR) :
    entityMark (archive_old_hours_go cfg key app_id snapshot st).2 key p = some v
      ∨ entityMark (archive_old_hours_go cfg key app_id snapshot st).2 key p
          = some ARCHIVED_HOUR := by
  induction snapshot generalizing st with
  | nil => exact hm
  | cons kv rest ih =>
    obtain ⟨q, u⟩ := kv
    unfold archive_old_hours_go
    by_cases h1 : is_hour_archived st key q
    · rw [if_pos h1]; exact ih st hm
    · rw [if_neg h1]
      by_cases h2 : u - lastEventHour q < cfg.fresh_limit
      · rw [if_pos h2]; exact ih st hm
      · rw [if_neg h2]
        dsimp only
        apply ih
        by_cases hq : q = p
        · subst hq
          rcases hm with hm | hm
          · rcases entityMark_mark_hour_archived_cases st key q v hm with hh | hh
            · exact Or.inl hh
            · exact Or.inr hh
          · rcases entityMark_mark_hour_archived_cases st key q ARCHIVED_HOUR hm
              with hh | hh
            · exact Or.inr hh
            · exact Or.inr hh
        · rw [entityMark_mark_hour_archived_ne st key p q (fun hh => hq hh.symm)]
          exact hm

/-!
Arithmetic facts about the hourly window.
-/

theorem hourUsec_pos : (0 : Int) < hourUsec := by decide

theorem mem_hourRange (lo hi x : Int) (h : x ∈ hourRange lo hi) :
    (∃ i : Nat, x = lo + (i : Int) * hourUsec) ∧ lo ≤ x ∧ x ≤ hi := by
  unfold hourRange at h
  split at h
  · simp at h
  · rename_i hle
    rw [List.mem_map] at h
    obtain ⟨i, hi_mem, rfl⟩ := h
    rw [List.mem_range] at hi_mem
    rw [Int.ofNat_eq_coe]
    have hnn : (0 : Int) ≤ (hi - lo) / hourUsec :=
      Int.ediv_nonneg (by omega) (le_of_lt hourUsec_pos)
    have hcast : ((i : Int)) < (hi - lo) / hourUsec + 1 := by
      have := (Int.toNat_of_nonneg (by omega :
        (0 : Int) ≤ (hi - lo) / hourUsec + 1))
      omega
    have hle2 : ((i : Int)) * hourUsec ≤ ((hi - lo) / hourUsec) * hourUsec := by
      apply mul_le_mul_of_nonneg_right _ (le_of_lt hourUsec_pos)
      omega
    have hfl : ((hi - lo) / hourUsec) * hourUsec ≤ hi - lo :=
      Int.ediv_mul_le (hi - lo) (ne_of_gt hourUsec_pos)
    refine ⟨⟨i, rfl⟩, ?_, ?_⟩
    · have : (0 : Int) ≤ ((i : Int)) * hourUsec :=
        mul_nonneg (by omega) (le_of_lt hourUsec_pos)
      omega
    · omega

theorem floorToHour_of_dvd (x : Int) (h : hourUsec ∣ x) : floorToHour x = x := by
  obtain ⟨c, rfl⟩ := h
  unfold floorToHour
  rw [mul_comm hourUsec c, Int.mul_ediv_cancel c (ne_of_gt hourUsec_pos)]

theorem floorToHour_mem_fix (lo hi x : Int) (hdvd : hourUsec ∣ lo)
    (h : x ∈ hourRange lo hi) : floorToHour x = x := by
  obtain ⟨⟨i, rfl⟩, _, _⟩ := mem_hourRange lo hi x h
  exact floorToHour_of_dvd _ (Dvd.dvd.add hdvd ⟨i, mul_comm _ _⟩)

theorem window_hour_from_dvd (cfg : SchedulerConfig) (started_at : Int) :
    hourUsec ∣ window_hour_from cfg started_at := by
  unfold window_hour_from floorToDay
  have : hourUsec ∣ dayUsec := ⟨24, by unfold dayUsec; ring⟩
  exact Dvd.dvd.mul_left this _

theorem mem_window_hours_aligned (cfg : SchedulerConfig) (started_at x : Int)
    (h : x ∈ window_hours cfg started_at) : floorToHour x = x := by
  unfold window_hours at h
  obtain ⟨⟨i, rfl⟩, _, _⟩ := mem_hourRange _ _ _ h
  apply floorToHour_of_dvd
  exact Dvd.dvd.add (window_hour_from_dvd cfg started_at) ⟨i, mul_comm _ _⟩

theorem hourRange_pairwise (lo hi : Int) :
    (hourRange lo hi).Pairwise (fun a b => a < b) := by
  unfold hourRange
  split
  · exact List.Pairwise.nil
  · rw [List.pairwise_map]
    apply (List.pairwise_lt_range _).imp
    intro a b hab
    rw [Int.ofNat_eq_coe, Int.ofNat_eq_coe]
    have hcast : (a : Int) < (b : Int) := by exact_mod_cast hab
    have := mul_lt_mul_of_pos_right hcast hourUsec_pos
    omega

theorem window_hours_nodup (cfg : SchedulerConfig) (started_at : Int) :
    (window_hours cfg started_at).Nodup := by
  apply List.Pairwise.imp _ (hourRange_pairwise
    (window_hour_from cfg started_at) (window_hour_to cfg started_at))
  intro a b hab
  exact ne_of_lt hab

theorem filter_ignored_hour (cfg : SchedulerConfig) (app_id : String) (p : Int) :
    (update_hour_ignored_fields cfg app_id).filter
      (fun r => r.hour == some p && r.update_type == UpdateRequest.ARCHIVE) = [] := by
  rw [List.filter_eq_nil_iff]
  intro r hr
  unfold update_hour_ignored_fields at hr
  rw [List.mem_map] at hr
  obtain ⟨s, _, rfl⟩ := hr
  simp

theorem mem_update_hour_ignored_fields (cfg : SchedulerConfig)
    (app_id : String) (r : UpdateRequest)
    (h : r ∈ update_hour_ignored_fields cfg app_id) :
    r.hour = none ∧ r.update_type = UpdateRequest.LOAD_HOUR_IGNORED
      ∧ r.app_id = app_id := by
  unfold update_hour_ignored_fields at h
  rw [List.mem_map] at h
  obtain ⟨s, _, rfl⟩ := h
  exact ⟨rfl, rfl, rfl⟩

/-- Bridge from the `_archive_old_hours` wrapper to its loop body when the
entity exists. -/
theorem archive_old_hours_eq (cfg : SchedulerConfig) (st : State)
    (key app_id : String) :
    archive_old_hours cfg st key app_id
      = archive_old_hours_go cfg key app_id
          (((findAppIdState st key).map (fun a => a.date_updates)).getD []) st := rfl

/-!
Claim theorems.
-/

/-- Claim C1, counterexample data: two hour-required sources are
configured; the events entity of app `a` has its only bucket archived. -/
def c1_cfg : SchedulerConfig :=
  { definition := ⟨["events", "sessions_starts"], []⟩
    app_ids := ["a"]
    update_limit := 0
    update_interval := hourUsec
    fresh_limit := 6 * hourUsec
    safe_lag_hours := 0
    profile_update_interval_hours := 12 }

def c1_hour : Int := 1704067200 * usecPerSec

def c1_st : State := ⟨none, [⟨"events_a", [(c1_hour, ARCHIVED_HOUR)], none⟩]⟩

def c1_started : Int := c1_hour + 1800 * usecPerSec

def c1_load_req : UpdateRequest :=
  ⟨"events", "a", some c1_hour, UpdateRequest.LOAD_ONE_HOUR⟩

/-- Claim C1 is false as stated: with two hour-required sources, even at a
realistic time the bucket archived in the `events_a` entity still receives
a Load request for source `events` (emitted while the scheduler walks the
`sessions_starts` entity, whose marks are empty), and executing that
request successfully makes the controller overwrite the archived mark with
an updated-at value. -/
theorem c1_counterexample :
    entityMark c1_st "events_a" c1_hour = some ARCHIVED_HOUR
      ∧ (update_requests c1_cfg c1_st c1_started c1_started c1_started).1.countP
          (fun r => r.source == "events" && r.hour == some c1_hour
            && r.update_type == UpdateRequest.LOAD_ONE_HOUR) = 1
      ∧ entityMark (controller_update c1_load_req (.ok ()) (.ok ()) (.error ())
            c1_st ⟨none, none⟩ (c1_started + 100)).state "events_a" c1_hour
          = some (c1_started + 100)
      ∧ some (c1_started + 100) ≠ some ARCHIVED_HOUR := by
  refine ⟨by decide, by decide, by decide, by decide⟩

/-- Claim C1 (amended): restricted to the scheduler pass over the archived
bucket's own (source, app) pair, at any `started_at` with
`started_at − ARCHIVED_HOUR < update_interval` (in particular any time
before the year-3000 sentinel when the interval is positive), no request
at all is yielded for that bucket and its mark still equals the archived
sentinel afterwards — the scheduler itself never turns an archived mark
into an updated-at value; only the controller acting on a load emitted via
a different hour-required source's entity can. -/
theorem c1_archived_bucket_amended (cfg : SchedulerConfig) (st : State)
    (app_id source : String) (p started_at : Int)
    (hm : entityMark st (source ++ "_" ++ app_id) p = some ARCHIVED_HOUR)
    (htime : started_at - ARCHIVED_HOUR < cfg.update_interval) :
    (∀ r ∈ (process_source cfg st app_id source started_at).1, r.hour ≠ some p)
      ∧ entityMark (process_source cfg st app_id source started_at).2
          (source ++ "_" ++ app_id) p = some ARCHIVED_HOUR := by
  have hex : (findAppIdState st (source ++ "_" ++ app_id)).isSome = true :=
    entityMark_isSome st _ p ARCHIVED_HOUR hm
  simp only [process_source]
  rw [get_or_create_key, get_or_create_found st source app_id hex,
    archive_old_hours_eq]
  obtain ⟨s_mem, s_mark⟩ := archive_old_hours_go_archived cfg
    (source ++ "_" ++ app_id) app_id p
    (((findAppIdState st (source ++ "_" ++ app_id)).map
      (fun a => a.date_updates)).getD []) st hm
  obtain ⟨w_mem, w_mark⟩ := run_window_skip cfg (source ++ "_" ++ app_id)
    app_id started_at p ARCHIVED_HOUR (window_hours cfg started_at) _ s_mark htime
  refine ⟨?_, w_mark⟩
  intro r hr
  rw [List.mem_append, List.mem_append] at hr
  rcases hr with (hr | hr) | hr
  · exact s_mem r hr
  · exact w_mem r hr
  · rw [(mem_update_hour_ignored_fields cfg app_id r hr).1]
    simp

theorem c1_archived_bucket_amended_witness :
    (entityMark c1_st "events_a" c1_hour = some ARCHIVED_HOUR
        ∧ c1_started - ARCHIVED_HOUR < c1_cfg.update_interval)
      ∧ ((∀ r ∈ (process_source c1_cfg c1_st "a" "events" c1_started).1,
            r.hour ≠ some c1_hour)
        ∧ entityMark (process_source c1_cfg c1_st "a" "events" c1_started).2
            "events_a" c1_hour = some ARCHIVED_HOUR) :=
  ⟨⟨by decide, by decide⟩,
    c1_archived_bucket_amended c1_cfg c1_st "a" "events" c1_hour c1_started
      (by decide) (by decide)⟩

/-- Claim C4: a bucket whose updated-at mark was set at time `T`, when the
pass runs again at `started_at = T + d` with `d < update_interval`, gets
no Load request from the pass over its (source, app) pair. -/
theorem c4_idempotent_rescan (cfg : SchedulerConfig) (st : State)
    (app_id source : String) (p T d started_at : Int)
    (hm : entityMark st (source ++ "_" ++ app_id) p = some T)
    (hstart : started_at = T + d) (hd : d < cfg.update_interval)
    (htime : started_at - ARCHIVED_HOUR < cfg.update_interval) :
    (process_source cfg st app_id source started_at).1.filter
      (fun r => r.hour == some p
        && r.update_type == UpdateRequest.LOAD_ONE_HOUR) = [] := by
  subst hstart
  have hex : (findAppIdState st (source ++ "_" ++ app_id)).isSome = true :=
    entityMark_isSome st _ p T hm
  simp only [process_source]
  rw [get_or_create_key, get_or_create_found st source app_id hex,
    archive_old_hours_eq]
  rw [List.filter_append, List.filter_append]
  have hsweep : (archive_old_hours_go cfg (source ++ "_" ++ app_id) app_id
      (((findAppIdState st (source ++ "_" ++ app_id)).map
        (fun a => a.date_updates)).getD []) st).1.filter
      (fun r => r.hour == some p
        && r.update_type == UpdateRequest.LOAD_ONE_HOUR) = [] := by
    rw [List.filter_eq_nil_iff]
    intro r hr
    have := archive_old_hours_go_types cfg (source ++ "_" ++ app_id) app_id
      (((findAppIdState st (source ++ "_" ++ app_id)).map
        (fun a => a.date_updates)).getD []) st r hr
    simp [this]
    intro
    decide
  have hcases := archive_old_hours_go_mark_cases cfg (source ++ "_" ++ app_id)
    app_id p T (((findAppIdState st (source ++ "_" ++ app_id)).map
      (fun a => a.date_updates)).getD []) st (Or.inl hm)
  have hwindow : (run_window cfg (source ++ "_" ++ app_id) app_id (T + d)
      (window_hours cfg (T + d))
      (archive_old_hours_go cfg (source ++ "_" ++ app_id) app_id
        (((findAppIdState st (source ++ "_" ++ app_id)).map
          (fun a => a.date_updates)).getD []) st).2).1.filter
      (fun r => r.hour == some p
        && r.update_type == UpdateRequest.LOAD_ONE_HOUR) = [] := by
    rw [List.filter_eq_nil_iff]
    intro r hr
    rcases hcases with hc | hc
    · obtain ⟨w_mem, _⟩ := run_window_skip cfg (source ++ "_" ++ app_id)
        app_id (T + d) p T (window_hours cfg (T + d)) _ hc (by omega)
      have := w_mem r hr
      simp [this]
    · obtain ⟨w_mem, _⟩ := run_window_skip cfg (source ++ "_" ++ app_id)
        app_id (T + d) p ARCHIVED_HOUR (window_hours cfg (T + d)) _ hc htime
      have := w_mem r hr
      simp [this]
  have hign : (update_hour_ignored_fields cfg app_id).filter
      (fun r => r.hour == some p
        && r.update_type == UpdateRequest.LOAD_ONE_HOUR) = [] := by
    rw [List.filter_eq_nil_iff]
    intro r hr
    rw [(mem_update_hour_ignored_fields cfg app_id r hr).1]
    simp
  rw [hsweep, hwindow, hign]
  rfl

def c4_cfg : SchedulerConfig :=
  { definition := ⟨["events"], []⟩
    app_ids := ["a"]
    update_limit := 0
    update_interval := hourUsec
    fresh_limit := 6 * hourUsec
    safe_lag_hours := 0
    profile_update_interval_hours := 12 }

def c4_hour : Int := 1704067200 * usecPerSec

def c4_T : Int := c4_hour + 600 * usecPerSec

def c4_st : State := ⟨none, [⟨"events_a", [(c4_hour, c4_T)], none⟩]⟩

theorem c4_idempotent_rescan_witness :
    (entityMark c4_st "events_a" c4_hour = some c4_T
        ∧ (1800 : Int) * usecPerSec < c4_cfg.update_interval
        ∧ (c4_T + 1800 * usecPerSec) - ARCHIVED_HOUR < c4_cfg.update_interval)
      ∧ (process_source c4_cfg c4_st "a" "events"
          (c4_T + 1800 * usecPerSec)).1.filter
        (fun r => r.hour == some c4_hour
          && r.update_type == UpdateRequest.LOAD_ONE_HOUR) = [] :=
  ⟨⟨by decide, by decide, by decide⟩,
    c4_idempotent_rescan c4_cfg c4_st "a" "events" c4_hour c4_T
      (1800 * usecPerSec) (c4_T + 1800 * usecPerSec)
      (by decide) rfl (by decide) (by decide)⟩

def c4_cfg_multi : SchedulerConfig :=
  { definition := ⟨["events", "sessions_starts"], []⟩
    app_ids := ["a"]
    update_limit := 0
    update_interval := hourUsec
    fresh_limit := 6 * hourUsec
    safe_lag_hours := 0
    profile_update_interval_hours := 12 }

def c4_st_multi : State := ⟨none, [⟨"events_a", [(c4_hour, c4_T)], none⟩]⟩

/-- Claim C4 is false at the level of the whole `update_requests` pass:
the events entity of app `a` has bucket `c4_hour` marked updated at
`c4_T`, and the pass re-runs only 1800 seconds later (below the one-hour
update interval), yet a Load request for (events, a, that hour) is still
yielded — emitted while walking the `sessions_starts` entity, which has no
mark for the bucket. -/
theorem c4_counterexample :
    entityMark c4_st_multi "events_a" c4_hour = some c4_T
      ∧ (1800 : Int) * usecPerSec < c4_cfg_multi.update_interval
      ∧ (update_requests c4_cfg_multi c4_st_multi (c4_T + 1800 * usecPerSec)
          (c4_T + 1800 * usecPerSec) (c4_T + 1800 * usecPerSec)).1.countP
        (fun r => r.source == "events" && r.hour == some c4_hour
          && r.update_type == UpdateRequest.LOAD_ONE_HOUR) = 1 := by
  refine ⟨by decide, by decide, by decide⟩

theorem lastEventHour_aligned (p : Int) (h : hourUsec ∣ p) :
    lastEventHour p = p + 3599 * usecPerSec := by
  unfold lastEventHour
  rw [floorToHour_of_dvd p h]
  have husec : usecPerSec ∣ p := by
    obtain ⟨c, rfl⟩ := h
    exact ⟨3600 * c, by unfold hourUsec; ring⟩
  rw [Int.emod_eq_zero_of_dvd husec]
  ring

theorem dictGet_eq_none_iff (l : List (Int × Int)) (p : Int) :
    dictGet l p = none ↔ ∀ kv ∈ l, kv.1 ≠ p := by
  unfold dictGet
  constructor
  · intro h kv hkv hcontr
    cases hfind : List.find? (fun kv => kv.1 == p) l with
    | none =>
      rw [List.find?_eq_none] at hfind
      exact hfind kv hkv (by simp [hcontr])
    | some x => rw [hfind] at h; simp at h
  · intro h
    have : List.find? (fun kv => kv.1 == p) l = none := by
      rw [List.find?_eq_none]
      intro kv hkv
      simp [h kv hkv]
    rw [this]
    rfl

/-- Claim C2: during the pass over a bucket's own (source, app) entity,
with reference time `r` (the stored updated-at mark of a non-archived
bucket, or `started_at` when the mark is unset and the bucket lies in the
window), the archive fan — exactly one Archive request per hour-required
source for that application — is produced iff
`r - (bucket_hour + 59:59) ≥ fresh_limit`, and otherwise (in particular
one second below the threshold) no Archive request for the bucket is
produced. -/
theorem c2_freshness_threshold (cfg : SchedulerConfig) (st : State)
    (app_id source : String) (p r started_at : Int)
    (hkey : strStartsWith (source ++ "_" ++ app_id) "profiles_" = false)
    (halign : hourUsec ∣ p)
    (htime : started_at - ARCHIVED_HOUR < cfg.update_interval)
    (hcase :
      ((∃ a, findAppIdState st (source ++ "_" ++ app_id) = some a
          ∧ (a.date_updates.map Prod.fst).Nodup)
        ∧ entityMark st (source ++ "_" ++ app_id) p = some r
        ∧ r ≠ ARCHIVED_HOUR)
      ∨ (entityMark st (source ++ "_" ++ app_id) p = none
        ∧ r = started_at ∧ p ∈ window_hours cfg started_at)) :
    (process_source cfg st app_id source started_at).1.filter
        (fun req => req.hour == some p
          && req.update_type == UpdateRequest.ARCHIVE)
      = if cfg.fresh_limit ≤ r - (p + 3599 * usecPerSec) then
          archive_requests cfg app_id p
        else [] := by
  have hleh : lastEventHour p = p + 3599 * usecPerSec :=
    lastEventHour_aligned p halign
  rcases hcase with ⟨⟨a, hfind, hnodup⟩, hm, hne⟩ | ⟨hm, hr, hmem⟩
  · -- stored-mark case: the archive sweep decides, the window never
    -- re-archives the bucket
    have hex : (findAppIdState st (source ++ "_" ++ app_id)).isSome = true := by
      rw [hfind]; rfl
    simp only [process_source]
    rw [get_or_create_key, get_or_create_found st source app_id hex,
      archive_old_hours_eq]
    have hsnap : (((findAppIdState st (source ++ "_" ++ app_id)).map
        (fun a => a.date_updates)).getD []) = a.date_updates := by
      rw [hfind]; rfl
    rw [hsnap]
    have hget : dictGet a.date_updates p = some r := by
      unfold entityMark at hm
      rw [hfind] at hm
      simpa using hm
    obtain ⟨l1, l2, hsplit, h1, h2⟩ := dict_decompose a.date_updates p r hnodup hget
    rw [hsplit]
    obtain ⟨sfil, smark⟩ := archive_old_hours_go_present cfg
      (source ++ "_" ++ app_id) app_id p r l1 l2 st h1 h2 hm hne hkey
    rw [List.filter_append, List.filter_append, sfil,
      filter_ignored_hour cfg app_id p]
    by_cases hstale : cfg.fresh_limit ≤ r - lastEventHour p
    · rw [if_pos hstale] at smark ⊢
      rw [if_pos (by omega : cfg.fresh_limit ≤ r - (p + 3599 * usecPerSec))]
      obtain ⟨w_mem, _⟩ := run_window_skip cfg (source ++ "_" ++ app_id)
        app_id started_at p ARCHIVED_HOUR (window_hours cfg started_at) _
        smark htime
      rw [filter_hour_archive_eq_nil p _ w_mem]
      simp
    · rw [if_neg hstale] at smark ⊢
      rw [if_neg (by omega : ¬ cfg.fresh_limit ≤ r - (p + 3599 * usecPerSec))]
      obtain ⟨w_fil, _⟩ := run_window_no_archive cfg (source ++ "_" ++ app_id)
        app_id started_at p r (window_hours cfg started_at) _
        smark (by omega)
      rw [w_fil]
      simp
  · -- unset-mark case: the window sweep decides with r as the
    -- reference time
    subst hr
    have windowPart : ∀ st2 : State,
        entityMark st2 (source ++ "_" ++ app_id) p = none →
        (run_window cfg (source ++ "_" ++ app_id) app_id r
            (window_hours cfg r) st2).1.filter
          (fun req => req.hour == some p
            && req.update_type == UpdateRequest.ARCHIVE)
        = if cfg.fresh_limit ≤ r - lastEventHour p then
            archive_requests cfg app_id p else [] := by
      intro st2 hm2
      obtain ⟨hs1, hs2, hsplit, h1, h2⟩ := mem_decompose_unique
        (window_hours cfg r) p
        (window_hours_nodup cfg r) hmem
      have halignw : ∀ x ∈ window_hours cfg r, floorToHour x = x :=
        fun x hx => mem_window_hours_aligned cfg r x hx
      have h1f : ∀ x ∈ hs1, floorToHour x ≠ p := by
        intro x hx
        rw [halignw x (by rw [hsplit]; exact List.mem_append_left _ hx)]
        exact h1 x hx
      have h2f : ∀ x ∈ hs2, floorToHour x ≠ p := by
        intro x hx
        rw [halignw x (by
          rw [hsplit]
          exact List.mem_append_right _ (List.mem_cons_of_mem _ hx))]
        exact h2 x hx
      rw [hsplit]
      exact run_window_unset cfg (source ++ "_" ++ app_id) app_id r
        p hs1 hs2 p st2 (floorToHour_of_dvd p halign) h1f h2f hm2
    simp only [process_source]
    rw [get_or_create_key, archive_old_hours_eq, List.filter_append,
      List.filter_append, filter_ignored_hour cfg app_id p]
    cases hfind : findAppIdState st (source ++ "_" ++ app_id) with
    | some a =>
      have hex : (findAppIdState st (source ++ "_" ++ app_id)).isSome = true := by
        rw [hfind]; rfl
      rw [get_or_create_found st source app_id hex]
      have hsnap : (((findAppIdState st (source ++ "_" ++ app_id)).map
          (fun a => a.date_updates)).getD []) = a.date_updates := by
        rw [hfind]; rfl
      rw [hsnap]
      have hget : dictGet a.date_updates p = none := by
        unfold entityMark at hm
        rw [hfind] at hm
        simpa using hm
      have hnp : ∀ kv ∈ a.date_updates, kv.1 ≠ p :=
        (dictGet_eq_none_iff a.date_updates p).mp hget
      obtain ⟨s_mem, s_mark⟩ := archive_old_hours_go_not_mem cfg
        (source ++ "_" ++ app_id) app_id p a.date_updates st hnp
      rw [filter_hour_archive_eq_nil p _ s_mem]
      rw [windowPart _ (by rw [s_mark]; exact hm), hleh]
      simp
    | none =>
      have hcreated := get_or_create_not_found st source app_id hfind
      have hsnap : (((findAppIdState
          (get_or_create_app_id_state st source app_id).1
          (source ++ "_" ++ app_id)).map
          (fun a => a.date_updates)).getD []) = [] := by
        rw [hcreated]; rfl
      rw [hsnap]
      have hm1 : entityMark (get_or_create_app_id_state st source app_id).1
          (source ++ "_" ++ app_id) p = none := by
        unfold entityMark
        rw [hcreated]
        rfl
      have hsweep : archive_old_hours_go cfg (source ++ "_" ++ app_id) app_id []
          (get_or_create_app_id_state st source app_id).1
          = ([], (get_or_create_app_id_state st source app_id).1) := rfl
      rw [hsweep]
      rw [windowPart _ hm1, hleh]
      simp

def c2_cfg : SchedulerConfig :=
  { definition := ⟨["events"], []⟩
    app_ids := ["a"]
    update_limit := 0
    update_interval := hourUsec
    fresh_limit := 6 * hourUsec
    safe_lag_hours := 0
    profile_update_interval_hours := 12 }

def c2_hour : Int := 1704067200 * usecPerSec

/-- A mark exactly at the archive threshold:
`u - (bucket_hour + 59:59) = fresh_limit`. -/
def c2_u_exact : Int := c2_hour + 3599 * usecPerSec + 6 * hourUsec

/-- A mark one second below the archive threshold. -/
def c2_u_below : Int := c2_u_exact - usecPerSec

def c2_st_exact : State := ⟨none, [⟨"events_a", [(c2_hour, c2_u_exact)], none⟩]⟩

def c2_st_below : State := ⟨none, [⟨"events_a", [(c2_hour, c2_u_below)], none⟩]⟩

def c2_started : Int := c2_hour + 1800 * usecPerSec

theorem c2_freshness_threshold_witness :
    ((process_source c2_cfg c2_st_exact "a" "events" c2_started).1.filter
        (fun req => req.hour == some c2_hour
          && req.update_type == UpdateRequest.ARCHIVE)
      = if c2_cfg.fresh_limit ≤ c2_u_exact - (c2_hour + 3599 * usecPerSec) then
          archive_requests c2_cfg "a" c2_hour else [])
    ∧ c2_cfg.fresh_limit ≤ c2_u_exact - (c2_hour + 3599 * usecPerSec)
    ∧ ((process_source c2_cfg c2_st_below "a" "events" c2_started).1.filter
        (fun req => req.hour == some c2_hour
          && req.update_type == UpdateRequest.ARCHIVE)
      = if c2_cfg.fresh_limit ≤ c2_u_below - (c2_hour + 3599 * usecPerSec) then
          archive_requests c2_cfg "a" c2_hour else [])
    ∧ ¬ c2_cfg.fresh_limit ≤ c2_u_below - (c2_hour + 3599 * usecPerSec) :=
  ⟨c2_freshness_threshold c2_cfg c2_st_exact "a" "events" c2_hour c2_u_exact
      c2_started (by decide) (by decide) (by decide)
      (Or.inl ⟨⟨⟨"events_a", [(c2_hour, c2_u_exact)], none⟩, by decide, by decide⟩,
        by decide, by decide⟩),
    by decide,
    c2_freshness_threshold c2_cfg c2_st_below "a" "events" c2_hour c2_u_below
      c2_started (by decide) (by decide) (by decide)
      (Or.inl ⟨⟨⟨"events_a", [(c2_hour, c2_u_below)], none⟩, by decide, by decide⟩,
        by decide, by decide⟩),
    by decide⟩

def c9_cfg : SchedulerConfig :=
  { definition := ⟨["events"], []⟩
    app_ids := ["a"]
    update_limit := 24 * hourUsec
    update_interval := hourUsec
    fresh_limit := 6 * hourUsec
    safe_lag_hours := 2
    profile_update_interval_hours := 12 }

/-- Claim C9: the window bounds are computed as
`hour_to = floor_to_hour(started_at - safe_lag)` and
`hour_from = floor_to_day(hour_to - update_limit)`; the window sweep
visits the buckets of `[hour_from, hour_to]` in strictly ascending order;
and with safe_lag = 2h, update_limit = 24h at
started_at = 2024-01-02 03:00:00, hour_to = 2024-01-02 01:00:00 and
hour_from = 2024-01-01 00:00:00. -/
theorem c9_window_bounds :
    (∀ (cfg : SchedulerConfig) (s : Int),
      window_hour_to cfg s = floorToHour (s - cfg.safe_lag_hours * hourUsec))
    ∧ (∀ (cfg : SchedulerConfig) (s : Int),
      window_hour_from cfg s = floorToDay (window_hour_to cfg s - cfg.update_limit))
    ∧ (∀ (cfg : SchedulerConfig) (s : Int),
      (window_hours cfg s).Pairwise (fun a b => a < b))
    ∧ (∀ (cfg : SchedulerConfig) (s p : Int), p ∈ window_hours cfg s →
      window_hour_from cfg s ≤ p ∧ p ≤ window_hour_to cfg s)
    ∧ window_hour_to c9_cfg (1704164400 * usecPerSec) = 1704157200 * usecPerSec
    ∧ window_hour_from c9_cfg (1704164400 * usecPerSec) = 1704067200 * usecPerSec := by
  refine ⟨fun cfg s => rfl, fun cfg s => rfl, ?_, ?_, by decide, by decide⟩
  · intro cfg s
    exact hourRange_pairwise _ _
  · intro cfg s p hp
    exact (mem_hourRange _ _ p hp).2

theorem c9_window_bounds_witness :
    (1704067200 : Int) * usecPerSec ∈ window_hours c9_cfg (1704164400 * usecPerSec)
      ∧ (window_hour_from c9_cfg (1704164400 * usecPerSec)
          ≤ 1704067200 * usecPerSec
        ∧ (1704067200 : Int) * usecPerSec
          ≤ window_hour_to c9_cfg (1704164400 * usecPerSec)) :=
  ⟨by decide,
    c9_window_bounds.2.2.2.1 c9_cfg (1704164400 * usecPerSec)
      (1704067200 * usecPerSec) (by decide)⟩

theorem run_window_types (cfg : SchedulerConfig) (key app_id : String)
    (started_at : Int) (hs : List Int) (st : State) :
    ∀ r ∈ (run_window cfg key app_id started_at hs st).1,
      r.update_type = UpdateRequest.LOAD_ONE_HOUR
        ∨ r.update_type = UpdateRequest.ARCHIVE := by
  induction hs generalizing st with
  | nil => intro r hr; simp [run_window] at hr
  | cons ph rest ih =>
    intro r hr
    unfold run_window at hr
    dsimp only at hr
    rw [List.mem_append] at hr
    rcases hr with hr | hr
    · exact (update_hour_mem cfg st key app_id (floorToHour ph) started_at r hr).2.2
    · exact ih _ r hr

theorem run_profiles_types (cfg : SchedulerConfig) (now : Int)
    (apps : List String) (st : State) :
    ∀ r ∈ (run_profiles cfg now apps st).1, r.update_type = "load_profiles" := by
  induction apps generalizing st with
  | nil => intro r hr; simp [run_profiles] at hr
  | cons a rest ih =>
    intro r hr
    unfold run_profiles at hr
    dsimp only at hr
    rw [List.mem_append] at hr
    rcases hr with hr | hr
    · rw [List.mem_filter] at hr
      have := hr.2
      simp only [Bool.and_eq_true, beq_iff_eq] at this
      exact this.1.2
    · exact ih _ r hr

theorem process_source_ign_filter (cfg : SchedulerConfig) (st : State)
    (x src a : String) (started_at : Int) :
    (process_source cfg st x src started_at).1.filter
        (fun r => r.update_type == UpdateRequest.LOAD_HOUR_IGNORED
          && r.app_id == a)
      = if x = a then update_hour_ignored_fields cfg a else [] := by
  simp only [process_source]
  rw [List.filter_append, List.filter_append]
  have hsweep : (archive_old_hours cfg
      (get_or_create_app_id_state st src x).1
      (get_or_create_app_id_state st src x).2 x).1.filter
      (fun r => r.update_type == UpdateRequest.LOAD_HOUR_IGNORED
        && r.app_id == a) = [] := by
    rw [List.filter_eq_nil_iff]
    intro r hr
    rw [archive_old_hours_eq] at hr
    have := archive_old_hours_go_types cfg _ x _ _ r hr
    simp [this]
    intro hcontr
    exact absurd hcontr (by decide)
  have hwin : (run_window cfg (get_or_create_app_id_state st src x).2 x
      started_at (window_hours cfg started_at)
      (archive_old_hours cfg (get_or_create_app_id_state st src x).1
        (get_or_create_app_id_state st src x).2 x).2).1.filter
      (fun r => r.update_type == UpdateRequest.LOAD_HOUR_IGNORED
        && r.app_id == a) = [] := by
    rw [List.filter_eq_nil_iff]
    intro r hr
    rcases run_window_types cfg _ x started_at _ _ r hr with ht | ht <;>
      simp [ht] <;> intro hcontr <;> exact absurd hcontr (by decide)
  rw [hsweep, hwin]
  by_cases hx : x = a
  · subst hx
    rw [if_pos rfl]
    simp only [List.nil_append]
    rw [List.filter_eq_self]
    intro r hr
    obtain ⟨_, h2, h3⟩ := mem_update_hour_ignored_fields cfg x r hr
    simp [h2, h3]
  · rw [if_neg hx]
    simp only [List.nil_append]
    rw [List.filter_eq_nil_iff]
    intro r hr
    obtain ⟨_, _, h3⟩ := mem_update_hour_ignored_fields cfg x r hr
    simp [h3, hx]

theorem run_sources_ign_filter (cfg : SchedulerConfig) (x a : String)
    (started_at : Int) (srcs : List String) (st : State) :
    (run_sources cfg x started_at srcs st).1.filter
        (fun r => r.update_type == UpdateRequest.LOAD_HOUR_IGNORED
          && r.app_id == a)
      = if x = a then
          List.flatten (srcs.map (fun _ => update_hour_ignored_fields cfg a))
        else [] := by
  induction srcs generalizing st with
  | nil => split <;> simp [run_sources]
  | cons s rest ih =>
    unfold run_sources
    dsimp only
    rw [List.filter_append, process_source_ign_filter cfg st x s a started_at,
      ih _]
    split <;> simp

theorem run_apps_ign_filter (cfg : SchedulerConfig) (a : String)
    (started_at : Int) (apps : List String) (st : State) :
    (run_apps cfg started_at apps st).1.filter
        (fun r => r.update_type == UpdateRequest.LOAD_HOUR_IGNORED
          && r.app_id == a)
      = List.flatten ((apps.filter (fun x => x == a)).map
          (fun _ => List.flatten (cfg.definition.date_required_sources.map
            (fun _ => update_hour_ignored_fields cfg a)))) := by
  induction apps generalizing st with
  | nil => simp [run_apps]
  | cons x rest ih =>
    unfold run_apps
    dsimp only
    rw [List.filter_append, run_sources_ign_filter cfg x a started_at _ st,
      ih _]
    by_cases hx : x = a
    · subst hx
      rw [if_pos rfl]
      simp
    · rw [if_neg hx]
      have : (x == a) = false := by simpa using hx
      simp [this]

theorem filter_beq_of_count_one (l : List String) (a : String)
    (h : l.count a = 1) : l.filter (fun x => x == a) = [a] := by
  induction l with
  | nil => simp at h
  | cons x rest ih =>
    rw [List.count_cons] at h
    by_cases hx : x = a
    · subst hx
      simp only [beq_self_eq_true, if_pos] at h
      have hzero : rest.count x = 0 := by omega
      rw [List.count_eq_zero] at hzero
      rw [List.filter_cons_of_pos (by simp)]
      have : rest.filter (fun y => y == x) = [] := by
        rw [List.filter_eq_nil_iff]
        intro y hy hbeq
        exact hzero ((by simpa using hbeq : y = x) ▸ hy)
      rw [this]
    · have hbx : (x == a) = false := by simpa using hx
      rw [hbx] at h
      simp only [Bool.false_eq_true, if_false] at h
      rw [List.filter_cons_of_neg (by simp [hbx])]
      exact ih h

/-- Claim C8 (amended): within one full pass, an application listed once
receives the load-ignoring-hour fan once per hour-required source — the
ignored-sources block is inside the `for source in date_required_sources`
loop — i.e. `|date_required_sources| × |date_ignored_sources|` requests,
not one per ignored source. -/
theorem c8_ignored_fan_amended (cfg : SchedulerConfig) (st : State)
    (a : String) (started_at profiles_now finish_now : Int)
    (hcount : cfg.app_ids.count a = 1) :
    (update_requests cfg st started_at profiles_now finish_now).1.filter
        (fun r => r.update_type == UpdateRequest.LOAD_HOUR_IGNORED
          && r.app_id == a)
      = List.flatten (cfg.definition.date_required_sources.map
          (fun _ => update_hour_ignored_fields cfg a)) := by
  unfold update_requests
  dsimp only
  rw [List.filter_append, run_apps_ign_filter cfg a started_at cfg.app_ids st,
    filter_beq_of_count_one cfg.app_ids a hcount]
  have hprof : (run_profiles cfg profiles_now cfg.app_ids
      (run_apps cfg started_at cfg.app_ids st).2).1.filter
      (fun r => r.update_type == UpdateRequest.LOAD_HOUR_IGNORED
        && r.app_id == a) = [] := by
    rw [List.filter_eq_nil_iff]
    intro r hr
    have := run_profiles_types cfg profiles_now cfg.app_ids _ r hr
    simp [this]
    intro hcontr
    exact absurd hcontr (by decide)
  rw [hprof]
  simp

def c8_cfg : SchedulerConfig :=
  { definition := ⟨["events", "sessions_starts"], ["deeplinks"]⟩
    app_ids := ["a"]
    update_limit := 0
    update_interval := hourUsec
    fresh_limit := 6 * hourUsec
    safe_lag_hours := 0
    profile_update_interval_hours := 12 }

def c8_started : Int := 1704067200 * usecPerSec

/-- Claim C8 is false as stated: with two hour-required sources and one
hour-ignored source, one pass gives app `a` two load-ignoring-hour
requests (one per hour-required source), not exactly one. -/
theorem c8_counterexample :
    (update_requests c8_cfg ⟨none, []⟩ c8_started c8_started c8_started).1.countP
        (fun r => r.update_type == UpdateRequest.LOAD_HOUR_IGNORED
          && r.app_id == "a") = 2
      ∧ (2 : Nat) ≠ 1 := ⟨by decide, by decide⟩

theorem c8_ignored_fan_amended_witness :
    (c8_cfg.app_ids.count "a" = 1)
      ∧ (update_requests c8_cfg ⟨none, []⟩ c8_started c8_started
            c8_started).1.filter
          (fun r => r.update_type == UpdateRequest.LOAD_HOUR_IGNORED
            && r.app_id == "a")
        = List.flatten (c8_cfg.definition.date_required_sources.map
            (fun _ => update_hour_ignored_fields c8_cfg "a")) :=
  ⟨by decide,
    c8_ignored_fan_amended c8_cfg ⟨none, []⟩ "a" c8_started c8_started
      c8_started (by decide)⟩

theorem get_or_create_exists (st : State) (source app_id : String) :
    (findAppIdState (get_or_create_app_id_state st source app_id).1
      (source ++ "_" ++ app_id)).isSome = true := by
  cases hfind : findAppIdState st (source ++ "_" ++ app_id) with
  | none => rw [get_or_create_not_found st source app_id hfind]; rfl
  | some a =>
    rw [get_or_create_found st source app_id (by rw [hfind]; rfl), hfind]
    rfl

theorem entityMark_mark_hour_updated_self (st : State) (key : String)
    (p now : Int) (hkey : strStartsWith key "profiles_" = false)
    (hex : (findAppIdState st key).isSome = true) :
    entityMark (mark_hour_updated st key p now) key p = some now := by
  unfold mark_hour_updated
  rw [if_neg (by simp [hkey])]
  unfold entityMark
  rw [findAppIdState_updateAppIdState_self st key
    (fun a => { a with date_updates := dictSet a.date_updates p now })
    (fun a => rfl)]
  cases hfind : findAppIdState st key with
  | none => rw [hfind] at hex; simp at hex
  | some a =>
    simpa using dictGet_dictSet_self a.date_updates p now

/-- Claim C3: `_update_hour` yields Load requests without ever writing an
updated-at mark (its state is unchanged or only gains the archived
sentinel); for a Load-hour request on a freshness-tracked source the
controller commits `updated-at = now` exactly on loader success, and a
loader exception is re-raised with the scheduler state untouched, so the
hour is retried on the next pass. -/
theorem c3_load_mark_after_success :
    (∀ (cfg : SchedulerConfig) (st : State) (key app_id : String)
        (p started_at : Int),
      (update_hour cfg st key app_id p started_at).2 = st
        ∨ (update_hour cfg st key app_id p started_at).2
            = mark_hour_archived st key p)
    ∧ (∀ (source app_id : String) (p now : Int)
        (ar : Except Unit Unit) (f : Except Unit (Option (List Int)))
        (st : State) (tables : ProfileTables),
      (source = "events" ∨ source = "sessions_starts") →
      strStartsWith (source ++ "_" ++ app_id) "profiles_" = false →
      (controller_update ⟨source, app_id, some p, UpdateRequest.LOAD_ONE_HOUR⟩
          (.ok ()) ar f st tables now).raised = false
        ∧ entityMark (controller_update
            ⟨source, app_id, some p, UpdateRequest.LOAD_ONE_HOUR⟩
            (.ok ()) ar f st tables now).state (source ++ "_" ++ app_id) p
          = some now)
    ∧ (∀ (source app_id : String) (p now : Int)
        (ar : Except Unit Unit) (f : Except Unit (Option (List Int)))
        (st : State) (tables : ProfileTables),
      source ≠ "profiles" →
      controller_update ⟨source, app_id, some p, UpdateRequest.LOAD_ONE_HOUR⟩
          (.error ()) ar f st tables now = ⟨true, st, tables⟩) := by
  refine ⟨update_hour_state, ?_, ?_⟩
  · intro source app_id p now ar f st tables hsrc hkey
    rcases hsrc with rfl | rfl
    · have hred : controller_update
          ⟨"events", app_id, some p, UpdateRequest.LOAD_ONE_HOUR⟩
          (.ok ()) ar f st tables now
          = ⟨false, mark_hour_updated
              (get_or_create_app_id_state st "events" app_id).1
              (get_or_create_app_id_state st "events" app_id).2 p now,
            tables⟩ := rfl
      rw [hred, get_or_create_key]
      exact ⟨rfl, entityMark_mark_hour_updated_self _ _ p now hkey
        (get_or_create_exists st "events" app_id)⟩
    · have hred : controller_update
          ⟨"sessions_starts", app_id, some p, UpdateRequest.LOAD_ONE_HOUR⟩
          (.ok ()) ar f st tables now
          = ⟨false, mark_hour_updated
              (get_or_create_app_id_state st "sessions_starts" app_id).1
              (get_or_create_app_id_state st "sessions_starts" app_id).2 p now,
            tables⟩ := rfl
      rw [hred, get_or_create_key]
      exact ⟨rfl, entityMark_mark_hour_updated_self _ _ p now hkey
        (get_or_create_exists st "sessions_starts" app_id)⟩
  · intro source app_id p now ar f st tables hsrc
    show (if (source == "profiles") = true then
        (⟨false, st, tables⟩ : DispatchResult)
      else ⟨true, st, tables⟩) = ⟨true, st, tables⟩
    rw [if_neg (by simpa using hsrc)]

theorem c3_load_mark_after_success_witness :
    ((update_hour c4_cfg c4_st "events_a" "a" c4_hour c4_T).2 = c4_st
        ∨ (update_hour c4_cfg c4_st "events_a" "a" c4_hour c4_T).2
            = mark_hour_archived c4_st "events_a" c4_hour)
      ∧ ((controller_update ⟨"events", "a", some c4_hour,
            UpdateRequest.LOAD_ONE_HOUR⟩ (.ok ()) (.ok ()) (.error ())
            c4_st ⟨none, none⟩ c4_T).raised = false
        ∧ entityMark (controller_update ⟨"events", "a", some c4_hour,
            UpdateRequest.LOAD_ONE_HOUR⟩ (.ok ()) (.ok ()) (.error ())
            c4_st ⟨none, none⟩ c4_T).state "events_a" c4_hour = some c4_T)
      ∧ controller_update ⟨"events", "a", some c4_hour,
            UpdateRequest.LOAD_ONE_HOUR⟩ (.error ()) (.ok ()) (.error ())
            c4_st ⟨none, none⟩ c4_T = ⟨true, c4_st, ⟨none, none⟩⟩ :=
  ⟨c3_load_mark_after_success.1 c4_cfg c4_st "events_a" "a" c4_hour c4_T,
    c3_load_mark_after_success.2.1 "events" "a" c4_hour c4_T (.ok ())
      (.error ()) c4_st ⟨none, none⟩ (Or.inl rfl) (by decide),
    c3_load_mark_after_success.2.2 "events" "a" c4_hour c4_T (.ok ())
      (.error ()) c4_st ⟨none, none⟩ (by decide)⟩

/-- Claim C7 (amended): for Load-hour, Archive and Load-hour-ignored
requests on non-profile sources, an exception from the dispatched
operation is logged and re-raised with the state untouched; but for the
`load_profiles` kind the snapshot loader catches every exception itself
(dropping the temp table) and the dispatch returns normally, so that kind
never re-raises. -/
theorem c7_dispatch_reraise_amended :
    (∀ (source app_id : String) (p now : Int)
        (ar : Except Unit Unit) (f : Except Unit (Option (List Int)))
        (st : State) (tables : ProfileTables),
      source ≠ "profiles" →
      controller_update ⟨source, app_id, some p, UpdateRequest.LOAD_ONE_HOUR⟩
          (.error ()) ar f st tables now = ⟨true, st, tables⟩)
    ∧ (∀ (source app_id : String) (p now : Int)
        (lr : Except Unit Unit) (f : Except Unit (Option (List Int)))
        (st : State) (tables : ProfileTables),
      source ≠ "profiles" →
      controller_update ⟨source, app_id, some p, UpdateRequest.ARCHIVE⟩
          lr (.error ()) f st tables now = ⟨true, st, tables⟩)
    ∧ (∀ (source app_id : String) (now : Int)
        (ar : Except Unit Unit) (f : Except Unit (Option (List Int)))
        (st : State) (tables : ProfileTables),
      source ≠ "profiles" →
      controller_update ⟨source, app_id, none, UpdateRequest.LOAD_HOUR_IGNORED⟩
          (.error ()) ar f st tables now = ⟨true, st, tables⟩)
    ∧ (∀ (app_id : String) (now : Int)
        (lr ar : Except Unit Unit) (f : Except Unit (Option (List Int)))
        (st : State) (tables : ProfileTables),
      controller_update ⟨"profiles", app_id, none, "load_profiles"⟩
          lr ar f st tables now = ⟨false, st, load_profiles tables f⟩) := by
  refine ⟨?_, ?_, ?_, ?_⟩
  · intro source app_id p now ar f st tables hsrc
    show (if (source == "profiles") = true then
        (⟨false, st, tables⟩ : DispatchResult)
      else ⟨true, st, tables⟩) = ⟨true, st, tables⟩
    rw [if_neg (by simpa using hsrc)]
  · intro source app_id p now lr f st tables hsrc
    show (if (source == "profiles") = true then
        (⟨false, st, tables⟩ : DispatchResult)
      else ⟨true, st, tables⟩) = ⟨true, st, tables⟩
    rw [if_neg (by simpa using hsrc)]
  · intro source app_id now ar f st tables hsrc
    show (if (source == "profiles") = true then
        (⟨false, st, tables⟩ : DispatchResult)
      else ⟨true, st, tables⟩) = ⟨true, st, tables⟩
    rw [if_neg (by simpa using hsrc)]
  · intro app_id now lr ar f st tables
    rfl

/-- Claim C7 is false as stated: an exception during the profile snapshot
dispatch (here the fetch raising) is not re-raised — `_load_profiles`
handles it internally, so `raised` is `false` and the outer loop never
observes the failure. -/
theorem c7_counterexample :
    (controller_update ⟨"profiles", "a", none, "load_profiles"⟩
        (.ok ()) (.ok ()) (.error ()) ⟨none, []⟩ ⟨some [7], none⟩ 0).raised
      = false := by decide

theorem c7_dispatch_reraise_amended_witness :
    (controller_update ⟨"events", "a", some c4_hour,
        UpdateRequest.LOAD_ONE_HOUR⟩ (.error ()) (.ok ()) (.error ())
        c4_st ⟨none, none⟩ 0 = ⟨true, c4_st, ⟨none, none⟩⟩)
      ∧ (controller_update ⟨"events", "a", some c4_hour,
          UpdateRequest.ARCHIVE⟩ (.ok ()) (.error ()) (.error ())
          c4_st ⟨none, none⟩ 0 = ⟨true, c4_st, ⟨none, none⟩⟩)
      ∧ (controller_update ⟨"deeplinks", "a", none,
          UpdateRequest.LOAD_HOUR_IGNORED⟩ (.error ()) (.ok ()) (.error ())
          c4_st ⟨none, none⟩ 0 = ⟨true, c4_st, ⟨none, none⟩⟩)
      ∧ (controller_update ⟨"profiles", "a", none, "load_profiles"⟩
          (.ok ()) (.ok ()) (.error ()) c4_st ⟨some [7], none⟩ 0
        = ⟨false, c4_st, load_profiles ⟨some [7], none⟩ (.error ())⟩) :=
  ⟨c7_dispatch_reraise_amended.1 "events" "a" c4_hour 0 (.ok ()) (.error ())
      c4_st ⟨none, none⟩ (by decide),
    c7_dispatch_reraise_amended.2.1 "events" "a" c4_hour 0 (.ok ()) (.error ())
      c4_st ⟨none, none⟩ (by decide),
    c7_dispatch_reraise_amended.2.2.1 "deeplinks" "a" 0 (.ok ()) (.error ())
      c4_st ⟨none, none⟩ (by decide),
    c7_dispatch_reraise_amended.2.2.2 "a" 0 (.ok ()) (.ok ()) (.error ())
      c4_st ⟨some [7], none⟩⟩

/-- Claim C5 (amended): if the profile fetch raises or returns a missing
(`None`) snapshot, the swap is aborted before the latest table is
touched — latest keeps its rows and no temp table remains; but a
non-missing empty snapshot passes the `is not None` check and replaces
latest. -/
theorem c5_snapshot_swap_amended (tables : ProfileTables) :
    load_profiles tables (.error ()) = ⟨tables.latest, none⟩
      ∧ load_profiles tables (.ok none) = ⟨tables.latest, none⟩
      ∧ ∀ rows : List Int,
          load_profiles tables (.ok (some rows)) = ⟨some rows, none⟩ := by
  refine ⟨rfl, rfl, fun rows => rfl⟩

/-- Claim C5 is false as stated: a fetch that returns an empty (zero-row)
DataFrame is not rejected — only `None` is — so an empty snapshot
replaces a populated latest table. -/
theorem c5_counterexample :
    load_profiles ⟨some [7], none⟩ (.ok (some [])) = ⟨some [], none⟩
      ∧ (some ([] : List Int)) ≠ some [7] := ⟨rfl, by decide⟩

/-- The in-memory profile refresh mark of an entity. -/
def entityLpu (st : State) (key : String) : Option Int :=
  (findAppIdState st key).bind (fun a => a.last_profile_update)

/-- Claim C6 (amended): per generator pass a profile-load request is
yielded iff `last_profile_update` is unset or
`now - last_profile_update > profile_refresh_interval`, and the field is
then set to `now` in memory; but the field is never serialized, so after
any save/load cycle every entity has it unset again — a pass that begins
by reloading persisted state therefore re-yields the request regardless
of the elapsed interval. -/
theorem c6_profile_cadence_amended :
    (∀ (cfg : SchedulerConfig) (st : State) (a : String) (now : Int),
      entityLpu (get_or_create_app_id_state st "profiles" a).1
          ("profiles" ++ "_" ++ a) = none →
      (update_profiles_if_needed cfg st a now).1
          = [⟨"profiles", a, none, "load_profiles"⟩]
        ∧ entityLpu (update_profiles_if_needed cfg st a now).2
            ("profiles" ++ "_" ++ a) = some now)
    ∧ (∀ (cfg : SchedulerConfig) (st : State) (a : String) (now t : Int),
      entityLpu (get_or_create_app_id_state st "profiles" a).1
          ("profiles" ++ "_" ++ a) = some t →
      now - t > cfg.profile_update_interval_hours * 3600 * usecPerSec →
      (update_profiles_if_needed cfg st a now).1
          = [⟨"profiles", a, none, "load_profiles"⟩]
        ∧ entityLpu (update_profiles_if_needed cfg st a now).2
            ("profiles" ++ "_" ++ a) = some now)
    ∧ (∀ (cfg : SchedulerConfig) (st : State) (a : String) (now t : Int),
      entityLpu (get_or_create_app_id_state st "profiles" a).1
          ("profiles" ++ "_" ++ a) = some t →
      ¬ now - t > cfg.profile_update_interval_hours * 3600 * usecPerSec →
      (update_profiles_if_needed cfg st a now).1 = []
        ∧ (update_profiles_if_needed cfg st a now).2
            = (get_or_create_app_id_state st "profiles" a).1)
    ∧ (∀ (s : State), ∀ a ∈ (state_round_trip s).app_id_states,
        a.last_profile_update = none) := by
  have hset : ∀ (st : State) (a : String) (now : Int),
      entityLpu (updateAppIdState (get_or_create_app_id_state st "profiles" a).1
          ((get_or_create_app_id_state st "profiles" a).2)
          (fun b => { b with last_profile_update := some now }))
        ("profiles" ++ "_" ++ a) = some now := by
    intro st a now
    rw [get_or_create_key]
    unfold entityLpu
    rw [findAppIdState_updateAppIdState_self _ _
      (fun b => { b with last_profile_update := some now }) (fun b => rfl)]
    have hex := get_or_create_exists st "profiles" a
    cases hfind : findAppIdState (get_or_create_app_id_state st "profiles" a).1
        ("profiles" ++ "_" ++ a) with
    | none => rw [hfind] at hex; simp at hex
    | some b => simp
  refine ⟨?_, ?_, ?_, ?_⟩
  · intro cfg st a now hm
    simp only [update_profiles_if_needed]
    rw [get_or_create_key]
    unfold entityLpu at hm
    rw [hm]
    dsimp only
    rw [if_pos rfl]
    refine ⟨rfl, ?_⟩
    have := hset st a now
    rw [get_or_create_key] at this
    exact this
  · intro cfg st a now t hm hdue
    simp only [update_profiles_if_needed]
    rw [get_or_create_key]
    unfold entityLpu at hm
    rw [hm]
    dsimp only
    rw [if_pos (by simpa using hdue)]
    refine ⟨rfl, ?_⟩
    have := hset st a now
    rw [get_or_create_key] at this
    exact this
  · intro cfg st a now t hm hdue
    simp only [update_profiles_if_needed]
    rw [get_or_create_key]
    unfold entityLpu at hm
    rw [hm]
    dsimp only
    rw [if_neg (by simpa using hdue)]
    exact ⟨rfl, rfl⟩
  · intro s a ha
    unfold state_round_trip parse_state at ha
    simp only [List.mem_map] at ha
    obtain ⟨e, _, rfl⟩ := ha
    rfl

def c6_cfg : SchedulerConfig :=
  { definition := ⟨[], []⟩
    app_ids := ["a"]
    update_limit := 0
    update_interval := hourUsec
    fresh_limit := 6 * hourUsec
    safe_lag_hours := 0
    profile_update_interval_hours := 12 }

def c6_t1 : Int := 1704067200 * usecPerSec

def c6_t2 : Int := c6_t1 + usecPerSec

/-- Claim C6 is false as stated: a pass at `c6_t1` emits the profile-load
request for app `a` and sets `last_profile_update := c6_t1`, but the
persisted document does not carry that field, so the next pass — only one
second later, far inside the 12-hour refresh interval — reloads persisted
state and emits the profile-load request again. -/
theorem c6_counterexample :
    (run_pass c6_cfg ⟨none, []⟩ c6_t1 c6_t1 c6_t1).1.countP
        (fun r => r.update_type == "load_profiles" && r.app_id == "a") = 1
      ∧ (run_pass c6_cfg (run_pass c6_cfg ⟨none, []⟩ c6_t1 c6_t1 c6_t1).2
          c6_t2 c6_t2 c6_t2).1.countP
        (fun r => r.update_type == "load_profiles" && r.app_id == "a") = 1
      ∧ c6_t2 - c6_t1
          ≤ c6_cfg.profile_update_interval_hours * 3600 * usecPerSec := by
  refine ⟨by decide, by decide, by decide⟩

theorem c6_profile_cadence_amended_witness :
    (entityLpu (get_or_create_app_id_state ⟨none, []⟩ "profiles" "a").1
        ("profiles" ++ "_" ++ "a") = none)
      ∧ ((update_profiles_if_needed c6_cfg ⟨none, []⟩ "a" c6_t1).1
          = [⟨"profiles", "a", none, "load_profiles"⟩]
        ∧ entityLpu (update_profiles_if_needed c6_cfg ⟨none, []⟩ "a" c6_t1).2
            ("profiles" ++ "_" ++ "a") = some c6_t1)
      ∧ (∀ a ∈ (state_round_trip
          ⟨none, [⟨"profiles_a", [], some c6_t1⟩]⟩).app_id_states,
        a.last_profile_update = none) :=
  ⟨by decide,
    c6_profile_cadence_amended.1 c6_cfg ⟨none, []⟩ "a" c6_t1 (by decide),
    c6_profile_cadence_amended.2.2.2 ⟨none, [⟨"profiles_a", [], some c6_t1⟩]⟩⟩

theorem usecPerSec_pos : (0 : Int) < usecPerSec := by decide

theorem parse_encode_hour_key (t : Int) (h : usecPerSec ∣ t) :
    parse_hour_key (encode_hour_key t) = t := by
  unfold parse_hour_key encode_hour_key
  exact Int.ediv_mul_cancel h

theorem from_to_unix_time (u : Int) (h : usecPerSec ∣ u) :
    from_unix_time (to_unix_time u) = u := by
  unfold from_unix_time to_unix_time
  obtain ⟨c, rfl⟩ := h
  rw [mul_comm usecPerSec c, Int.mul_tdiv_cancel c (ne_of_gt usecPerSec_pos)]

/-- Claim C10 (amended): for every `State` whose `last_update_time` and
stored hour keys and marks are whole-second datetimes, decoding the
encoded document restores an equal `last_update_time`, equal entity keys
and equal per-hour marks; the archived sentinel is such a value, so
archived-ness survives a save/load cycle.  (The decoded entities differ
only in `last_profile_update`, which the encoder drops.) -/
theorem c10_round_trip_amended (s : State)
    (hlast : ∀ t, s.last_update_time = some t → usecPerSec ∣ t)
    (hmarks : ∀ a ∈ s.app_id_states, ∀ kv ∈ a.date_updates,
      usecPerSec ∣ kv.1 ∧ usecPerSec ∣ kv.2) :
    (state_round_trip s).last_update_time = s.last_update_time
      ∧ (state_round_trip s).app_id_states.map
          (fun a => (a.app_id, a.date_updates))
        = s.app_id_states.map (fun a => (a.app_id, a.date_updates))
      ∧ usecPerSec ∣ ARCHIVED_HOUR
      ∧ from_unix_time (to_unix_time ARCHIVED_HOUR) = ARCHIVED_HOUR := by
  refine ⟨?_, ?_, ⟨32503680000, by decide⟩,
    from_to_unix_time ARCHIVED_HOUR ⟨32503680000, by decide⟩⟩
  · unfold state_round_trip parse_state encode_state
    cases hl : s.last_update_time with
    | none => rfl
    | some t =>
      simp only [Option.map_map]
      simp only [Option.map]
      exact congrArg some (from_to_unix_time t (hlast t hl))
  · unfold state_round_trip parse_state encode_state
    simp only [List.map_map]
    have : ∀ a ∈ s.app_id_states,
        ((fun a => (a.app_id, a.date_updates))
            ∘ parse_app_id_state ∘ encode_app_id_state) a
          = (fun a => (a.app_id, a.date_updates)) a := by
      intro a ha
      simp only [Function.comp, parse_app_id_state, encode_app_id_state,
        parse_date_updates, List.map_map]
      refine Prod.ext rfl ?_
      simp only
      have hpt : ∀ kv ∈ a.date_updates,
          ((fun kv : Int × Int => (parse_hour_key kv.1, from_unix_time kv.2))
              ∘ fun kv : Int × Int => (encode_hour_key kv.1, to_unix_time kv.2)) kv
            = id kv := by
        intro kv hkv
        obtain ⟨h1, h2⟩ := hmarks a ha kv hkv
        simp only [Function.comp, id]
        exact Prod.ext (parse_encode_hour_key kv.1 h1) (from_to_unix_time kv.2 h2)
      rw [List.map_congr_left hpt, List.map_id]
    rw [List.map_congr_left this]

def c10_hour : Int := 1704067200 * usecPerSec

/-- A mark with a nonzero microsecond component, as `datetime.now()`
produces: half a second past the hour. -/
def c10_st : State :=
  ⟨none, [⟨"events_a", [(c10_hour, c10_hour + 500000)], none⟩]⟩

/-- Claim C10 is false as stated: `int(updated_at.timestamp())` truncates
marks to whole seconds, so a mark carrying microseconds (any
`datetime.now()` result) decodes to a different value than was encoded. -/
theorem c10_counterexample :
    state_round_trip c10_st
        = ⟨none, [⟨"events_a", [(c10_hour, c10_hour)], none⟩]⟩
      ∧ (c10_hour : Int) ≠ c10_hour + 500000 := ⟨by decide, by decide⟩

theorem c10_round_trip_amended_witness :
    ((∀ t, (State.mk (some c10_hour)
          [⟨"events_a", [(c10_hour, ARCHIVED_HOUR)], none⟩]).last_update_time
            = some t → usecPerSec ∣ t)
      ∧ (∀ a ∈ (State.mk (some c10_hour)
            [⟨"events_a", [(c10_hour, ARCHIVED_HOUR)], none⟩]).app_id_states,
          ∀ kv ∈ a.date_updates, usecPerSec ∣ kv.1 ∧ usecPerSec ∣ kv.2))
    ∧ ((state_round_trip (State.mk (some c10_hour)
          [⟨"events_a", [(c10_hour, ARCHIVED_HOUR)], none⟩])).last_update_time
        = (State.mk (some c10_hour)
            [⟨"events_a", [(c10_hour, ARCHIVED_HOUR)], none⟩]).last_update_time
      ∧ (state_round_trip (State.mk (some c10_hour)
            [⟨"events_a", [(c10_hour, ARCHIVED_HOUR)], none⟩])).app_id_states.map
          (fun a => (a.app_id, a.date_updates))
        = (State.mk (some c10_hour)
            [⟨"events_a", [(c10_hour, ARCHIVED_HOUR)], none⟩]).app_id_states.map
          (fun a => (a.app_id, a.date_updates))
      ∧ usecPerSec ∣ ARCHIVED_HOUR
      ∧ from_unix_time (to_unix_time ARCHIVED_HOUR) = ARCHIVED_HOUR) :=
  ⟨⟨by intro t ht; cases ht; exact ⟨1704067200, by decide⟩,
      by decide⟩,
    c10_round_trip_amended (State.mk (some c10_hour)
        [⟨"events_a", [(c10_hour, ARCHIVED_HOUR)], none⟩])
      (by intro t ht; cases ht; exact ⟨1704067200, by decide⟩)
      (by decide)⟩
